import Mathlib

/- Shallow embedding of the Smart-Dispatcher campaign engine
   (Backend modules: campaignManager, dispatcher, templateEngine,
   sessionManager, api server route guards, and the frontend
   mergeSessions reconciliation), with theorems checking the
   natural-language specification against the code. -/

namespace SmartDispatcher

/-! Generic JavaScript-object / Map helpers used across the embedding. -/

/-- Lookup in an association list (JS object property read; JS object keys are
unique, so the first match is the match). -/
def lookupKey {α : Type} : List (String × α) → String → Option α
  | [], _ => none
  | e :: rest, k => if e.1 = k then some e.2 else lookupKey rest k

/-- JS object property assignment `obj[k] = v` (also `Map.set`): if the key is
present its value is overwritten in place, otherwise the pair is appended
(JS insertion order is retained on overwrite). -/
def objSet {α : Type} : List (String × α) → String → α → List (String × α)
  | [], k, v => [(k, v)]
  | e :: rest, k, v => if e.1 = k then (k, v) :: rest else e :: objSet rest k v

theorem lookupKey_objSet_self {α : Type} (m : List (String × α)) (k : String) (v : α) :
    lookupKey (objSet m k v) k = some v := by
  induction m with
  | nil => simp [objSet, lookupKey]
  | cons e rest ih =>
    by_cases he : e.1 = k
    · simp [objSet, lookupKey, he]
    · simp [objSet, lookupKey, he, ih]

theorem lookupKey_objSet_other {α : Type} (m : List (String × α)) (k k2 : String) (v : α)
    (hne : k2 ≠ k) : lookupKey (objSet m k v) k2 = lookupKey m k2 := by
  induction m with
  | nil => simp [objSet, lookupKey, Ne.symm hne]
  | cons e rest ih =>
    by_cases he : e.1 = k
    · simp [objSet, lookupKey, he, Ne.symm hne]
    · by_cases he2 : e.1 = k2
      · simp [objSet, lookupKey, he, he2, hne]
      · simp [objSet, lookupKey, he, he2, ih]

/-! Message renderer (modules/campaign/templateEngine.js). -/

def lbraceC : Char := Char.ofNat 123
def rbraceC : Char := Char.ofNat 125
def lbrackC : Char := Char.ofNat 91
def rbrackC : Char := Char.ofNat 93
def slashC : Char := Char.ofNat 47
def pipeC : Char := Char.ofNat 124

/-- Character class `[^{}|/]` of the variable regex, negated: the characters
that stop a `\x7b...\x7d` key match. -/
def braceStop (c : Char) : Bool :=
  c = lbraceC || c = rbraceC || c = pipeC || c = slashC

/-- Character class `[^\[\]]` of the variable regex, negated. -/
def brackStop (c : Char) : Bool :=
  c = lbrackC || c = rbrackC

/-- Scan up to the first character satisfying `stop`; return the consumed
text, the stop character, and the remainder after it (or `none` when no stop
character occurs). -/
def scanKey (stop : Char → Bool) : List Char → Option (List Char × Char × List Char)
  | [] => none
  | c :: cs =>
    if stop c then some ([], c, cs)
    else (scanKey stop cs).map (fun r => (c :: r.1, r.2.1, r.2.2))

theorem scanKey_length {stop : Char → Bool} :
    ∀ (cs : List Char) (r : List Char × Char × List Char),
      scanKey stop cs = some r → r.2.2.length < cs.length := by
  intro cs
  induction cs with
  | nil => intro r h; simp [scanKey] at h
  | cons c rest ih =>
    intro r h
    by_cases hc : stop c
    · simp [scanKey, hc] at h
      rw [← h]
      exact Nat.lt_succ_self _
    · cases hs : scanKey stop rest with
      | none => simp [scanKey, hc, hs] at h
      | some r2 =>
        obtain ⟨k2, c2, rest2⟩ := r2
        simp [scanKey, hc, hs] at h
        rw [← h]
        exact Nat.lt_succ_of_lt (ih (k2, c2, rest2) hs)

/-- Greedy match of `([^{}|/]+)\}` after an opening brace: succeeds exactly
when the first stopping character is the closing brace and at least one key
character was consumed, mirroring the regex alternative `\{([^{}|/]+)\}`. -/
def breakBrace (cs : List Char) : Option (List Char × List Char) :=
  match scanKey braceStop cs with
  | some (key, c, rest) => if c = rbraceC && !key.isEmpty then some (key, rest) else none
  | none => none

/-- Greedy match of `([^\[\]]+)\]` after an opening bracket, mirroring the
regex alternative `\[([^\[\]]+)\]`. -/
def breakBracket (cs : List Char) : Option (List Char × List Char) :=
  match scanKey brackStop cs with
  | some (key, c, rest) => if c = rbrackC && !key.isEmpty then some (key, rest) else none
  | none => none

theorem breakBrace_length (cs : List Char) (r : List Char × List Char)
    (h : breakBrace cs = some r) : r.2.length < cs.length := by
  unfold breakBrace at h
  cases hs : scanKey braceStop cs with
  | none => rw [hs] at h; simp at h
  | some t =>
    rw [hs] at h
    obtain ⟨key, c, rest⟩ := t
    by_cases hc : c = rbraceC && !key.isEmpty
    · simp [hc] at h
      have := scanKey_length cs (key, c, rest) hs
      rw [← h]
      exact this
    · simp [hc] at h

theorem breakBracket_length (cs : List Char) (r : List Char × List Char)
    (h : breakBracket cs = some r) : r.2.length < cs.length := by
  unfold breakBracket at h
  cases hs : scanKey brackStop cs with
  | none => rw [hs] at h; simp at h
  | some t =>
    rw [hs] at h
    obtain ⟨key, c, rest⟩ := t
    by_cases hc : c = rbrackC && !key.isEmpty
    · simp [hc] at h
      have := scanKey_length cs (key, c, rest) hs
      rw [← h]
      exact this
    · simp [hc] at h

/-- Source `String(rawKey).trim().toLowerCase()` from `applyTemplate`. -/
def normKey (key : List Char) : String :=
  (String.mk key).trim.toLower

/-- Source `normalizeVariables` from templateEngine.js: keys trimmed and lower-cased,
falsy (empty) keys skipped, later duplicates overwriting earlier ones. -/
def normalizeVariables (vars : List (String × String)) : List (String × String) :=
  vars.foldl (fun acc kv => if kv.1 = "" then acc else objSet acc (kv.1.trim.toLower) kv.2) []

/-- The replacement callback of `template.replace`: the variable value when the
normalized key is a property of the normalized map, else the original matched
text (opening delimiter, raw key, closing delimiter) verbatim. -/
def substMatch (nv : List (String × String)) (opn cls : Char) (key : List Char) : List Char :=
  match lookupKey nv (normKey key) with
  | some v => v.data
  | none => opn :: key ++ [cls]

/-- The variable-substitution pass
`template.replace(/\{([^{}|/]+)\}|\[([^\[\]]+)\]/g, ...)`: a left-to-right,
non-overlapping scan; replacements are emitted without re-scanning. -/
def substVars (nv : List (String × String)) : List Char → List Char
  | [] => []
  | c :: cs =>
    if c = lbraceC then
      match h : breakBrace cs with
      | some kr => substMatch nv lbraceC rbraceC kr.1 ++ substVars nv kr.2
      | none => c :: substVars nv cs
    else if c = lbrackC then
      match h : breakBracket cs with
      | some kr => substMatch nv lbrackC rbrackC kr.1 ++ substVars nv kr.2
      | none => c :: substVars nv cs
    else
      c :: substVars nv cs
termination_by cs => cs.length
decreasing_by
  all_goals simp_wf
  all_goals
    first
    | exact Nat.lt_succ_of_lt (breakBrace_length _ _ h)
    | exact Nat.lt_succ_of_lt (breakBracket_length _ _ h)
    | exact Nat.lt_succ_self _

/-- Separator characters of a spintax variant group (the characters the
variable regex excludes from brace keys "to avoid matching Spintax"). -/
def isSpinSep (c : Char) : Bool := c = slashC || c = pipeC

/-- Split a group body on separator characters. -/
def splitSep : List Char → List (List Char)
  | [] => [[]]
  | c :: cs =>
    if isSpinSep c then [] :: splitSep cs
    else
      match splitSep cs with
      | [] => [[c]]
      | a :: as => (c :: a) :: as

/-- Scan of a brace group body for the spintax stage: stops at any brace. -/
def breakGroup (cs : List Char) : Option (List Char × List Char) :=
  match scanKey (fun c => c = lbraceC || c = rbraceC) cs with
  | some (body, c, rest) => if c = rbraceC then some (body, rest) else none
  | none => none

theorem breakGroup_length (cs : List Char) (r : List Char × List Char)
    (h : breakGroup cs = some r) : r.2.length < cs.length := by
  unfold breakGroup at h
  cases hs : scanKey (fun c => c = lbraceC || c = rbraceC) cs with
  | none => rw [hs] at h; simp at h
  | some t =>
    rw [hs] at h
    obtain ⟨body, c, rest⟩ := t
    by_cases hc : c = rbraceC
    · simp [hc] at h
      have := scanKey_length cs (body, c, rest) hs
      rw [← h]
      exact this
    · simp [hc] at h

/-- Pick one alternative of a variant group body for a given choice index. -/
def spintaxPick (body : List Char) (choice : Nat) : List Char :=
  let alts := splitSep body
  alts.getD (choice % alts.length) []

/-- Modelled from the spec: `SpintaxParser.parse` (modules/campaign/spintax.js
is not under src/).  Per §4.4 a weighted-variant group — a brace group whose
body contains a separator — is resolved by selecting one alternative per group
occurrence; selection is deterministic given the injected choice sequence
(§4.4: repeatable given a fixed random seed).  Brace runs without a separator
are not variant groups and are left verbatim. -/
def spintaxParse (choices : List Nat) : List Char → List Char
  | [] => []
  | c :: cs =>
    if c = lbraceC then
      match h : breakGroup cs with
      | some br =>
        if br.1.any isSpinSep then
          spintaxPick br.1 (choices.headD 0) ++ spintaxParse choices.tail br.2
        else
          (c :: br.1 ++ [rbraceC]) ++ spintaxParse choices br.2
      | none => c :: spintaxParse choices cs
    else
      c :: spintaxParse choices cs
termination_by cs => cs.length
decreasing_by
  all_goals simp_wf
  all_goals
    first
    | exact Nat.lt_succ_of_lt (breakGroup_length _ _ h)
    | exact Nat.lt_succ_self _

/-- Source `applyTemplate` from templateEngine.js: empty template short-circuits to
the empty string; otherwise variables are substituted first and the spintax
stage resolves variant groups on the substituted text.  The `choices` list is
the injected randomness of the spintax stage. -/
def applyTemplate (choices : List Nat) (template : String)
    (vars : List (String × String)) : String :=
  if template = "" then ""
  else String.mk (spintaxParse choices (substVars (normalizeVariables vars) template.data))

/-! Daily statistics (CampaignManager._updateDailyStats / getDailyStats). -/

/-- Persistent daily-stats document `data/daily_stats.json`. -/
structure DailyStats where
  date : String
  totalSent : Nat
  totalDelivered : Nat
  hourly : List (String × Nat)
deriving DecidableEq, Repr

/-- The freshly reset record `\x7b date: today, totalSent: 0, totalDelivered: 0, hourly: \x7b\x7d \x7d`. -/
def freshStats (today : String) : DailyStats :=
  { date := today, totalSent := 0, totalDelivered := 0, hourly := [] }

/-- Source `String(hour).padStart(2, '0') + ':00'` from `_updateDailyStats`. -/
def hourKey (hour : Nat) : String :=
  (if hour < 10 then "0" else "") ++ toString hour ++ ":00"

/-- Source `stats.hourly[hourKey] = (stats.hourly[hourKey] || 0) + 1`. -/
def bumpHour (hourly : List (String × Nat)) (k : String) : List (String × Nat) :=
  objSet hourly k ((lookupKey hourly k).getD 0 + 1)

/-- The status filter `['SENT', 'DELIVERED', 'SERVER_ACK'].includes(status)`. -/
def qualifiesForStats (status : String) : Bool :=
  status = "SENT" || status = "DELIVERED" || status = "SERVER_ACK"

/-- Source `CampaignManager._updateDailyStats`, as a pure function of the stored
document (`none` when `daily_stats.json` is absent), the current date string,
the current hour, and the message status.  Mirrors the source: reset the whole
record when the stored date differs from today, then increment `totalSent` and
the current hour bucket when the status qualifies. -/
def updateDailyStats (existing : Option DailyStats) (today : String) (hour : Nat)
    (status : String) : DailyStats :=
  let stats :=
    match existing with
    | some s => if s.date = today then s else freshStats today
    | none => freshStats today
  if qualifiesForStats status then
    { stats with
      totalSent := stats.totalSent + 1,
      hourly := bumpHour stats.hourly (hourKey hour) }
  else
    stats

/-! Campaign state document and CampaignManager.hasActiveCampaign. -/

/-- One entry of `state.messageStatus` (keyed by client message id). -/
structure MsgRec where
  campaignId : String
  contactId : String
  phone : String
  status : String
  error : Option String
deriving DecidableEq, Repr

/-- Campaign configuration persisted inside `state.config` for resume. -/
structure CampaignConfig where
  messageTemplate : String
  excelPath : String
  originalFilename : String
  delayMin : Option Nat
  delayMax : Option Nat
deriving DecidableEq, Repr

/-- The durable campaign state document `data/campaign_state.json`. -/
structure CState where
  campaignId : Option String
  totalContacts : Nat
  processedRows : List Nat
  failedRows : List (Nat × String)
  pendingRows : List Nat
  messageStatus : List (String × MsgRec)
  config : Option CampaignConfig
deriving DecidableEq, Repr

/-- The default state `loadState` returns when no file exists
(`totalContacts` is absent in the literal, i.e. `0` after `|| 0`). -/
def defaultState : CState :=
  { campaignId := none, totalContacts := 0, processedRows := [], failedRows := [],
    pendingRows := [], messageStatus := [], config := none }

/-- Source `CampaignManager.loadState`: the disk document when present, else the default. -/
def loadState (disk : Option CState) : CState :=
  disk.getD defaultState

/-- Source `CampaignManager.hasActiveCampaign`, faithful to the source:
no `campaignId` means inactive; a legacy state (`totalContacts = 0`) is active
when `pendingRows` is non-empty; otherwise active iff `processed < total`. -/
def hasActiveCampaign (disk : Option CState) : Bool :=
  let state := loadState disk
  match state.campaignId with
  | none => false
  | some _ =>
    let total := state.totalContacts
    let processed := state.processedRows.length
    if total = 0 && !state.pendingRows.isEmpty then true
    else if 0 < total && processed < total then true
    else false

/-! Pacing policy and Dispatcher (modules/dispatch/dispatcher.js). -/

/-- Delay override passed to `ComplianceEngine.setDelayRange` (milliseconds). -/
structure DelayConfig where
  minDelay : Option Nat
  maxDelay : Option Nat
deriving DecidableEq, Repr

/-- Modelled from the spec: `ComplianceEngine.getTypingDelay`
(modules/compliance/engine.js is not under src/).  §4.3: a typing delay
proportional to rendered message length, bounded to a plausible human range;
pure function of its inputs. -/
def getTypingDelay (msg : String) : Nat :=
  min (max (msg.length * 50) 800) 5000

/-- Modelled from the spec: `ComplianceEngine.getVariableDelay`
(modules/compliance/engine.js is not under src/).  §4.3: a post-send delay
drawn uniformly from the configured `[min, max]` window (default range when
not overridden); the draw is injected as `rand` to keep the policy pure. -/
def getVariableDelay (cfg : DelayConfig) (rand : Nat) : Nat :=
  let lo := cfg.minDelay.getD 5000
  let hi := max (cfg.maxDelay.getD 15000) lo
  lo + rand % (hi - lo + 1)

/-- The borrowed session handle as the Dispatcher sees it: an id plus the two
optional capabilities it probes for (`waitUntilReady`, `enterCooldown`). -/
structure DClient where
  id : String
  hasWaitUntilReady : Bool
  hasEnterCooldown : Bool
deriving DecidableEq, Repr

/-- Provider acknowledgement of `sendMessage`. -/
structure SendAck where
  messageId : Option String
  jid : Option String
deriving DecidableEq, Repr

/-- Outcomes of the awaited external calls of one `dispatch`, injected as data:
the load-balancer pick, the `waitUntilReady` outcome, the `sendMessage`
outcome, and whether `waitForDelivery` confirmed within its timeout. -/
structure DispatchEnv where
  nextClient : Option DClient
  readyOutcome : Except String Unit
  sendOutcome : Except String SendAck
  deliveryConfirmed : Bool
  rand : Nat
  spinChoices : List Nat
deriving Repr

/-- Observable side effects `dispatch` performs on the selected session. -/
inductive DAction where
  | waitUntilReady (timeoutMs : Nat)
  | sleepTyping (ms : Nat)
  | sendMessage (phone text : String)
  | waitForDelivery (messageId : String) (timeoutMs : Nat)
  | enterCooldown (ms : Nat)
deriving DecidableEq, Repr

/-- The object `dispatch` resolves with. -/
structure DispatchResult where
  status : String
  chip : String
  message : String
  clientMessageId : Option String
  messageId : Option String
  jid : Option String
  typingDelay : Nat
  waitDelay : Nat
deriving DecidableEq, Repr

/-- Payload of `Dispatcher.dispatch`. -/
structure DispatchPayload where
  phone : String
  messageTemplate : String
  vars : List (String × String)
  clientMessageId : Option String
  delayConfig : DelayConfig
  dryRun : Bool
deriving Repr

/-- Source `Dispatcher.dispatch`, faithful to the source control flow: render, pick a
client (throw when none), optional bounded `waitUntilReady`, compute delays;
unless dry-run: sleep the typing delay, send (send errors propagate), and when
the provider returned a message id await delivery confirmation for 20s — on
confirmation fall through to the cooldown step and resolve `DELIVERED`, on
ack-timeout return `SENT` immediately (the soft-fail early return, which skips
the cooldown step); dry-run resolves `DELIVERED` with no messageId and no
session side effect.  Returns the result together with the performed actions. -/
def dispatch (env : DispatchEnv) (p : DispatchPayload) :
    Except String (DispatchResult × List DAction) :=
  let finalMessage := applyTemplate env.spinChoices p.messageTemplate p.vars
  match env.nextClient with
  | none => .error "No active sessions available for dispatch."
  | some client =>
    let readyStep : Except String (List DAction) :=
      if client.hasWaitUntilReady then
        match env.readyOutcome with
        | .ok _ => .ok [DAction.waitUntilReady 30000]
        | .error e => .error e
      else .ok []
    match readyStep with
    | .error e => .error e
    | .ok acts0 =>
      let typingTime := getTypingDelay finalMessage
      let postSendDelay := getVariableDelay p.delayConfig env.rand
      if p.dryRun then
        .ok ({ status := "DELIVERED", chip := client.id, message := finalMessage,
               clientMessageId := p.clientMessageId, messageId := none, jid := none,
               typingDelay := typingTime, waitDelay := postSendDelay }, acts0)
      else
        match env.sendOutcome with
        | .error e => .error e
        | .ok ack =>
          let acts1 := acts0 ++ [DAction.sleepTyping typingTime,
                                 DAction.sendMessage p.phone finalMessage]
          match ack.messageId with
          | some msgId =>
            if env.deliveryConfirmed then
              .ok ({ status := "DELIVERED", chip := client.id, message := finalMessage,
                     clientMessageId := p.clientMessageId, messageId := some msgId,
                     jid := ack.jid, typingDelay := typingTime, waitDelay := postSendDelay },
                   acts1 ++ [DAction.waitForDelivery msgId 20000] ++
                     (if client.hasEnterCooldown then [DAction.enterCooldown postSendDelay] else []))
            else
              .ok ({ status := "SENT", chip := client.id, message := finalMessage,
                     clientMessageId := p.clientMessageId, messageId := some msgId,
                     jid := ack.jid, typingDelay := typingTime, waitDelay := postSendDelay },
                   acts1 ++ [DAction.waitForDelivery msgId 20000])
          | none =>
            .ok ({ status := "DELIVERED", chip := client.id, message := finalMessage,
                   clientMessageId := p.clientMessageId, messageId := none,
                   jid := ack.jid, typingDelay := typingTime, waitDelay := postSendDelay },
                 acts1 ++
                   (if client.hasEnterCooldown then [DAction.enterCooldown postSendDelay] else []))

/-! Campaign orchestrator (CampaignManager.startCampaign and the API guard). -/

/-- One parsed contact row. -/
structure Contact where
  row : Nat
  phone : String
deriving DecidableEq, Repr

/-- Modelled from the spec: `createMessageId` (modules/utils/correlation.js is
not under src/).  §3: the correlation identifier is generated fresh per
contact and never reused; modelled as a row-indexed fresh id. -/
def cmid (c : Contact) : String := "msg-" ++ toString c.row

/-- Modelled from the spec: `createContactId` (modules/utils/correlation.js is
not under src/), a fresh per-row contact id. -/
def contactIdOf (c : Contact) : String := "contact-" ++ toString c.row

/-- Events the orchestrator emits to external observers. -/
inductive Event where
  | campaignStarted (campaignId : String) (totalContacts remaining : Nat)
  | messageStatusEv (clientMessageId : String) (status : String) (phone : String)
      (error : Option String)
  | queueUpdate (current total : Nat)
  | cooldownWait (duration : Nat)
  | campaignFinished (campaignId : String) (processed failed : Nat)
  | logEv (msg : String)
deriving DecidableEq, Repr

/-- One iteration of the dispatch loop body of `CampaignManager.startCampaign`
for contact `c`: the `try` branch on a resolved dispatch (record status, and on
`DELIVERED`/`SENT` append the row to `processedRows`, update daily stats and
emit queue/cooldown events), the `catch` branch on a thrown dispatch (append
`(row, error)` to `failedRows`, record a `FAILED` status entry, emit the
failure event, and also append the row to `processedRows`). -/
def processContact (campaignId : String) (today : String) (hour : Nat) (isLast : Bool)
    (c : Contact) (outcome : Except String (String × Nat)) (st : CState)
    (stats : Option DailyStats) : CState × Option DailyStats × List Event :=
  let mid := cmid c
  let sendingEv := Event.messageStatusEv mid "SENDING" c.phone none
  match outcome with
  | .ok (status, wait) =>
    let st1 := { st with
      messageStatus := objSet st.messageStatus mid
        { campaignId := campaignId, contactId := contactIdOf c, phone := c.phone,
          status := status, error := none } }
    if status = "DELIVERED" || status = "SENT" then
      let st2 := { st1 with processedRows := st1.processedRows ++ [c.row] }
      let stats2 := some (updateDailyStats stats today hour status)
      (st2, stats2,
        [sendingEv, Event.messageStatusEv mid status c.phone none,
         Event.queueUpdate st2.processedRows.length st2.totalContacts] ++
        (if !isLast && decide (0 < wait) then [Event.cooldownWait wait] else []))
    else
      (st1, stats, [sendingEv, Event.messageStatusEv mid status c.phone none])
  | .error e =>
    let st1 := { st with failedRows := st.failedRows ++ [(c.row, e)] }
    let st2 := { st1 with
      messageStatus := objSet st1.messageStatus mid
        { campaignId := campaignId, contactId := contactIdOf c, phone := c.phone,
          status := "FAILED", error := some e } }
    let st3 := { st2 with processedRows := st2.processedRows ++ [c.row] }
    (st3, stats, [sendingEv, Event.messageStatusEv mid "FAILED" c.phone (some e)])

/-- The sequential dispatch loop `for (const contact of toProcess)` of a full
(never-paused) run, threading the in-memory state, the daily-stats file and the
emitted events; state is persisted after every contact (the threaded state is
the persisted document). -/
def runLoop (campaignId : String) (today : String) (hour : Nat)
    (outcomes : Nat → Except String (String × Nat)) :
    List Contact → CState → Option DailyStats → CState × Option DailyStats × List Event
  | [], st, stats => (st, stats, [])
  | c :: rest, st, stats =>
    let step := processContact campaignId today hour rest.isEmpty c (outcomes c.row) st stats
    let next := runLoop campaignId today hour outcomes rest step.1 step.2.1
    (next.1, next.2.1, step.2.2 ++ next.2.2)

/-- The reset block of `startCampaign` taken when a different `campaignId` is
already on record. -/
def resetState (campaignId : String) (cfg : CampaignConfig) : CState :=
  { campaignId := some campaignId, totalContacts := 0, processedRows := [],
    failedRows := [], pendingRows := [], messageStatus := [], config := some cfg }

/-- Everything a run of `startCampaign` produces: the resolved/rejected value,
whether the run returned early on the `waitForReady` timeout, the final
in-memory state, the durable state file content, the daily-stats file and the
emitted events. -/
structure RunOut where
  result : Except String String
  aborted : Bool
  final : CState
  disk : Option CState
  stats : Option DailyStats
  events : List Event
deriving Repr

/-- Source `CampaignManager.startCampaign`, faithful to the source sequence: load
state; when a different campaignId is on record, reset all progress
collections in memory; adopt the id and config; parse the contact source (a
thrown parse error propagates before any persist); store `totalContacts` and
persist; filter `processedRows`; emit `campaign_started`; when work remains
and no session becomes ready, return early with an error field; otherwise run
the dispatch loop and emit `campaign_finished`.  `parse` injects the parser
outcome, `sessionsReady` the `waitForReady` outcome, `outcomes` the per-row
dispatcher outcome (`.ok (status, postSendDelay)` or a thrown error). -/
def startCampaign (disk : Option CState) (campaignId : String) (cfg : CampaignConfig)
    (parse : Except String (List Contact)) (sessionsReady : Bool)
    (today : String) (hour : Nat) (stats0 : Option DailyStats)
    (outcomes : Nat → Except String (String × Nat)) : RunOut :=
  let state0 := loadState disk
  let state1 :=
    if state0.campaignId.isSome && state0.campaignId ≠ some campaignId then
      resetState campaignId cfg
    else state0
  let state2 := { state1 with campaignId := some campaignId, config := some cfg }
  match parse with
  | .error e =>
    { result := .error e, aborted := false, final := state2, disk := disk,
      stats := stats0, events := [] }
  | .ok contacts =>
    let state3 := { state2 with totalContacts := contacts.length }
    let disk1 : Option CState := some state3
    let toProcess := contacts.filter (fun c => !state3.processedRows.contains c.row)
    let evStart := Event.campaignStarted campaignId contacts.length toProcess.length
    if !toProcess.isEmpty && !sessionsReady then
      { result := .ok campaignId, aborted := true, final := state3, disk := disk1,
        stats := stats0, events := [evStart] }
    else
      let run := runLoop campaignId today hour outcomes toProcess state3 stats0
      { result := .ok campaignId, aborted := false, final := run.1,
        disk := some run.1, stats := run.2.1,
        events := [evStart] ++ run.2.2 ++
          [Event.campaignFinished campaignId run.1.processedRows.length
            run.1.failedRows.length] }

/-- The guard of the `POST /api/campaign/start` route: a start request while
`hasActiveCampaign()` holds throws before `startCampaign` is ever invoked, so
the persisted state is untouched; otherwise the campaign is started. -/
def apiCampaignStart (disk : Option CState) (campaignId : String) (cfg : CampaignConfig)
    (parse : Except String (List Contact)) (sessionsReady : Bool)
    (today : String) (hour : Nat) (stats0 : Option DailyStats)
    (outcomes : Nat → Except String (String × Nat)) :
    Except String String × Option CState :=
  if hasActiveCampaign disk then
    (.error "Já existe uma campanha em andamento. Aguarde o término ou limpe a campanha atual.",
     disk)
  else
    let out := startCampaign disk campaignId cfg parse sessionsReady today hour stats0 outcomes
    (out.result, out.disk)

/-! Frontend session-list reconciliation (mergeSessions). -/

/-- A session object of the frontend list: its id plus its remaining fields as
a JS object. -/
structure JSession where
  id : String
  fields : List (String × String)
deriving DecidableEq, Repr

/-- JS object spread `\x7b ...base, ...upd \x7d`: sequential property
assignment of `upd` over `base`. -/
def spreadObj (base upd : List (String × String)) : List (String × String) :=
  upd.foldl (fun acc kv => objSet acc kv.1 kv.2) base

/-- Source `\x7b ...session, ...updated \x7d` on session objects: the id (present in
both) is overwritten by `updated`, the remaining fields merged with `updated`
taking precedence. -/
def mergeRecord (s u : JSession) : JSession :=
  { id := u.id, fields := spreadObj s.fields u.fields }

/-- Source `Map.get` on the incoming map. -/
def jsMapGet (m : List (String × JSession)) (k : String) : Option JSession :=
  lookupKey m k

/-- Source `Map.delete`. -/
def jsMapDelete (m : List (String × JSession)) (k : String) : List (String × JSession) :=
  m.filter (fun e => !(e.1 = k))

/-- The `previous.forEach` loop of `mergeSessions`, returning the pushed
entries and the map after the handled deletions. -/
def mergeLoop : List JSession → List (String × JSession) →
    List JSession × List (String × JSession)
  | [], mp => ([], mp)
  | s :: rest, mp =>
    match jsMapGet mp s.id with
    | some u =>
      let next := mergeLoop rest (jsMapDelete mp s.id)
      (mergeRecord s u :: next.1, next.2)
    | none =>
      let next := mergeLoop rest mp
      (if s.id.startsWith "temp_" then s :: next.1 else next.1, next.2)

/-- Source `mergeSessions(previous, incoming)` from the frontend socket context:
build a `Map` keyed by id from `incoming`, walk `previous` (update matches and
mark them handled; keep unmatched entries only when their id starts with
`temp_`), then append the unhandled incoming sessions. -/
def mergeSessions (previous incoming : List JSession) : List JSession :=
  let mp := incoming.foldl (fun m s => objSet m s.id s) []
  let run := mergeLoop previous mp
  run.1 ++ run.2.map (fun e => e.2)

/-- The claim's description of `mergeSessions`, stated as its own function for
the refinement comparison: previous sessions present in `incoming` merged
field-wise with incoming precedence; previous sessions absent from `incoming`
kept iff their id starts with `temp_`; incoming sessions with no previous
counterpart appended. -/
def mergeSessionsSpec (previous incoming : List JSession) : List JSession :=
  previous.filterMap (fun p =>
    match incoming.find? (fun u => u.id = p.id) with
    | some u => some (mergeRecord p u)
    | none => if p.id.startsWith "temp_" then some p else none) ++
  incoming.filter (fun u => !previous.any (fun p => p.id = u.id))

/-! Theorems. -/

/-- C7: for every qualifying successful send (status SENT or DELIVERED), the
daily-stats update first resets the whole record to zero when the stored date
differs from the current day, then increments `totalSent` and the current
hour's bucket by one; hence two successes on the same day yield
`totalSent = 2` and a success recorded after a date rollover yields
`totalSent = 1`, not 3. -/
theorem updateDailyStats_date (o : Option DailyStats) (d : String) (h : Nat) (st : String) :
    (updateDailyStats o d h st).date = d := by
  cases o with
  | none => by_cases hqs : qualifiesForStats st <;> simp [updateDailyStats, freshStats, hqs]
  | some s =>
    by_cases hd : s.date = d <;> by_cases hqs : qualifiesForStats st <;>
      simp [updateDailyStats, freshStats, hd, hqs]

theorem updateDailyStats_totalSent (o : Option DailyStats) (d : String) (h : Nat)
    (st : String) (hq : qualifiesForStats st = true) :
    (updateDailyStats o d h st).totalSent =
      (match o with
       | some s => if s.date = d then s.totalSent else 0
       | none => 0) + 1 := by
  cases o with
  | none => simp [updateDailyStats, freshStats, hq]
  | some s => by_cases hd : s.date = d <;> simp [updateDailyStats, freshStats, hq, hd]

theorem updateDailyStats_hourly (o : Option DailyStats) (d : String) (h : Nat)
    (st : String) (hq : qualifiesForStats st = true) :
    lookupKey (updateDailyStats o d h st).hourly (hourKey h) =
      some ((match o with
             | some s => if s.date = d then (lookupKey s.hourly (hourKey h)).getD 0 else 0
             | none => 0) + 1) := by
  cases o with
  | none => simp [updateDailyStats, freshStats, hq, bumpHour, lookupKey_objSet_self, lookupKey]
  | some s =>
    by_cases hd : s.date = d <;>
      simp [updateDailyStats, freshStats, hq, hd, bumpHour, lookupKey_objSet_self, lookupKey]

theorem updateDailyStats_resets_then_increments
    (s : DailyStats) (d d2 : String) (h h2 h3 : Nat) (st st2 st3 : String)
    (hq : qualifiesForStats st = true) (hq2 : qualifiesForStats st2 = true)
    (hq3 : qualifiesForStats st3 = true) (hne : d2 ≠ d) :
    ((updateDailyStats (some s) d h st).date = d ∧
     (updateDailyStats (some s) d h st).totalSent =
        (if s.date = d then s.totalSent else 0) + 1 ∧
     lookupKey (updateDailyStats (some s) d h st).hourly (hourKey h) =
        some ((if s.date = d then (lookupKey s.hourly (hourKey h)).getD 0 else 0) + 1)) ∧
    (updateDailyStats (some (updateDailyStats none d h st)) d h2 st2).totalSent = 2 ∧
    (updateDailyStats
        (some (updateDailyStats (some (updateDailyStats none d h st)) d h2 st2))
        d2 h3 st3).totalSent = 1 := by
  refine ⟨⟨updateDailyStats_date _ _ _ _, ?_, ?_⟩, ?_, ?_⟩
  · rw [updateDailyStats_totalSent _ _ _ _ hq]
  · rw [updateDailyStats_hourly _ _ _ _ hq]
  · rw [updateDailyStats_totalSent _ _ _ _ hq2]
    simp [updateDailyStats_date, updateDailyStats_totalSent _ _ _ _ hq]
  · rw [updateDailyStats_totalSent _ _ _ _ hq3]
    simp [updateDailyStats_date, hne.symm]

/-- Witness for C7 at concrete inputs. -/
theorem updateDailyStats_resets_then_increments_witness :
    qualifiesForStats "SENT" = true ∧ qualifiesForStats "DELIVERED" = true ∧
    ("2026-01-03" : String) ≠ "2026-01-02" ∧
    (((updateDailyStats (some ⟨"2026-01-01", 5, 0, []⟩) "2026-01-02" 14 "SENT").date =
        "2026-01-02" ∧
      (updateDailyStats (some ⟨"2026-01-01", 5, 0, []⟩) "2026-01-02" 14 "SENT").totalSent =
        (if ("2026-01-01" : String) = "2026-01-02" then 5 else 0) + 1 ∧
      lookupKey (updateDailyStats (some ⟨"2026-01-01", 5, 0, []⟩) "2026-01-02" 14 "SENT").hourly
          (hourKey 14) =
        some ((if ("2026-01-01" : String) = "2026-01-02" then
            (lookupKey ([] : List (String × Nat)) (hourKey 14)).getD 0 else 0) + 1)) ∧
     (updateDailyStats (some (updateDailyStats none "2026-01-02" 14 "SENT")) "2026-01-02" 15
        "DELIVERED").totalSent = 2 ∧
     (updateDailyStats
        (some (updateDailyStats (some (updateDailyStats none "2026-01-02" 14 "SENT"))
          "2026-01-02" 15 "DELIVERED")) "2026-01-03" 16 "SENT").totalSent = 1) := by
  refine ⟨by decide, by decide, by decide, ?_⟩
  exact updateDailyStats_resets_then_increments ⟨"2026-01-01", 5, 0, []⟩ "2026-01-02"
    "2026-01-03" 14 15 16 "SENT" "DELIVERED" "SENT" (by decide) (by decide) (by decide)
    (by decide)

/-- C4: whenever `hasActiveCampaign()` is true, a start request is rejected by
the API route guard before `startCampaign` runs, and the persisted campaign
state is returned unchanged. -/
theorem apiCampaignStart_rejects_when_active
    (disk : Option CState) (campaignId : String) (cfg : CampaignConfig)
    (parse : Except String (List Contact)) (sessionsReady : Bool)
    (today : String) (hour : Nat) (stats0 : Option DailyStats)
    (outcomes : Nat → Except String (String × Nat))
    (h : hasActiveCampaign disk = true) :
    apiCampaignStart disk campaignId cfg parse sessionsReady today hour stats0 outcomes =
      (.error "Já existe uma campanha em andamento. Aguarde o término ou limpe a campanha atual.",
       disk) := by
  simp [apiCampaignStart, h]

/-- A mid-flight persisted campaign (1 of 3 rows processed). -/
def activeDiskExample : CState := ⟨some "camp-old", 3, [1], [], [], [], none⟩

/-- Witness for C4: the active example campaign rejects a new start and the
disk document is returned unchanged. -/
theorem apiCampaignStart_rejects_when_active_witness :
    hasActiveCampaign (some activeDiskExample) = true ∧
    apiCampaignStart (some activeDiskExample) "camp-new" ⟨"t", "x.xlsx", "x.xlsx", none, none⟩
        (.ok [⟨1, "p1"⟩]) true "2026-10-11" 12 none (fun _ => .ok ("SENT", 100)) =
      (.error "Já existe uma campanha em andamento. Aguarde o término ou limpe a campanha atual.",
       some activeDiskExample) := by
  refine ⟨by decide, ?_⟩
  exact apiCampaignStart_rejects_when_active _ "camp-new" ⟨"t", "x.xlsx", "x.xlsx", none, none⟩
    (.ok [⟨1, "p1"⟩]) true "2026-10-11" 12 none (fun _ => .ok ("SENT", 100)) (by decide)

/-- C3: for every non-dry-run send in which the provider returns a message
identifier, `dispatch` awaits delivery confirmation with a bounded 20s
timeout; on confirmation it resolves with status `DELIVERED`, on ack-timeout
it resolves with status `SENT` and raises no error to the caller. -/
theorem dispatch_ack_timeout_soft_success
    (env : DispatchEnv) (p : DispatchPayload) (client : DClient) (ack : SendAck)
    (msgId : String)
    (hc : env.nextClient = some client)
    (hr : client.hasWaitUntilReady = true → env.readyOutcome = Except.ok ())
    (hd : p.dryRun = false)
    (hs : env.sendOutcome = Except.ok ack)
    (hm : ack.messageId = some msgId) :
    ∃ res acts, dispatch env p = .ok (res, acts) ∧
      DAction.waitForDelivery msgId 20000 ∈ acts ∧
      res.status = (if env.deliveryConfirmed then "DELIVERED" else "SENT") ∧
      res.messageId = some msgId := by
  cases hw : client.hasWaitUntilReady with
  | true =>
    have hro := hr hw
    cases hdc : env.deliveryConfirmed <;>
      simp [dispatch, hc, hd, hs, hm, hw, hro, hdc] <;>
      exact ⟨_, _, ⟨rfl, rfl⟩, by simp, rfl, rfl⟩
  | false =>
    cases hdc : env.deliveryConfirmed <;>
      simp [dispatch, hc, hd, hs, hm, hw, hdc] <;>
      exact ⟨_, _, ⟨rfl, rfl⟩, by simp, rfl, rfl⟩

/-- The concrete ack-timeout scenario: a client exposing `enterCooldown`,
a send acknowledged with a message id, and no delivery confirmation. -/
def ackTimeoutClient : DClient := ⟨"chip-1", false, true⟩

def ackTimeoutEnv : DispatchEnv :=
  ⟨some ackTimeoutClient, .ok (), .ok ⟨some "MID-1", none⟩, false, 0, []⟩

def ackTimeoutPayload : DispatchPayload :=
  ⟨"5511999990000", "", [], some "cm-1", ⟨none, none⟩, false⟩

/-- Witness for C3 at the concrete ack-timeout scenario. -/
theorem dispatch_ack_timeout_soft_success_witness :
    ackTimeoutEnv.nextClient = some ackTimeoutClient ∧
    ackTimeoutPayload.dryRun = false ∧
    ackTimeoutEnv.sendOutcome = Except.ok ⟨some "MID-1", none⟩ ∧
    (∃ res acts, dispatch ackTimeoutEnv ackTimeoutPayload = .ok (res, acts) ∧
      DAction.waitForDelivery "MID-1" 20000 ∈ acts ∧
      res.status = (if ackTimeoutEnv.deliveryConfirmed then "DELIVERED" else "SENT") ∧
      res.messageId = some "MID-1") :=
  ⟨rfl, rfl, rfl,
    dispatch_ack_timeout_soft_success ackTimeoutEnv ackTimeoutPayload ackTimeoutClient
      ⟨some "MID-1", none⟩ "MID-1" rfl (by intro h; exact absurd h (by decide)) rfl rfl rfl⟩

/-- Counterexample to C6: in the ack-timeout scenario the send completes
without a hard error and is reported with status `SENT`, the session exposes
the cooldown capability, yet no `enterCooldown` action is performed — the
soft-fail early return skips the cooldown step. -/
theorem dispatch_sent_skips_cooldown_cex :
    ∃ res acts, dispatch ackTimeoutEnv ackTimeoutPayload = .ok (res, acts) ∧
      res.status = "SENT" ∧ ackTimeoutClient.hasEnterCooldown = true ∧
      ∀ ms, ¬ DAction.enterCooldown ms ∈ acts := by
  refine ⟨_, _, rfl, rfl, rfl, ?_⟩
  intro ms
  simp [dispatch, ackTimeoutEnv, ackTimeoutPayload, ackTimeoutClient]

/-- C6 (amended): for every real (non-dry-run) send that completes without a
hard error, the dispatcher invokes the selected session's cooldown capability
(when the session exposes one) with the computed post-send delay exactly when
the result status is `DELIVERED`; on the ack-timeout path the result is
`SENT` and the early return skips the cooldown invocation. -/
theorem dispatch_cooldown_only_when_delivered
    (env : DispatchEnv) (p : DispatchPayload) (client : DClient) (ack : SendAck)
    (hc : env.nextClient = some client)
    (hr : client.hasWaitUntilReady = true → env.readyOutcome = Except.ok ())
    (hd : p.dryRun = false)
    (hs : env.sendOutcome = Except.ok ack) :
    ∃ res acts, dispatch env p = .ok (res, acts) ∧
      (res.status = "DELIVERED" → client.hasEnterCooldown = true →
        DAction.enterCooldown (getVariableDelay p.delayConfig env.rand) ∈ acts) ∧
      (res.status = "SENT" → ∀ ms, ¬ DAction.enterCooldown ms ∈ acts) := by
  cases hw : client.hasWaitUntilReady with
  | true =>
    have hro := hr hw
    cases hm : ack.messageId with
    | none =>
      cases hcd : client.hasEnterCooldown <;>
        simp [dispatch, hc, hd, hs, hm, hw, hro, hcd] <;>
        first
        | exact ⟨_, _, ⟨rfl, rfl⟩, by intros; simp_all, by intros; simp_all⟩
        | exact ⟨_, _, ⟨rfl, rfl⟩, by intros; simp_all⟩
        | (intros; simp_all)
    | some msgId =>
      cases hdc : env.deliveryConfirmed with
      | true =>
        cases hcd : client.hasEnterCooldown <;>
          simp [dispatch, hc, hd, hs, hm, hw, hro, hdc, hcd] <;>
          first
        | exact ⟨_, _, ⟨rfl, rfl⟩, by intros; simp_all, by intros; simp_all⟩
        | exact ⟨_, _, ⟨rfl, rfl⟩, by intros; simp_all⟩
        | (intros; simp_all)
      | false =>
        simp [dispatch, hc, hd, hs, hm, hw, hro, hdc] <;>
          first
        | exact ⟨_, _, ⟨rfl, rfl⟩, by intros; simp_all, by intros; simp_all⟩
        | exact ⟨_, _, ⟨rfl, rfl⟩, by intros; simp_all⟩
        | (intros; simp_all)
  | false =>
    cases hm : ack.messageId with
    | none =>
      cases hcd : client.hasEnterCooldown <;>
        simp [dispatch, hc, hd, hs, hm, hw, hcd] <;>
        first
        | exact ⟨_, _, ⟨rfl, rfl⟩, by intros; simp_all, by intros; simp_all⟩
        | exact ⟨_, _, ⟨rfl, rfl⟩, by intros; simp_all⟩
        | (intros; simp_all)
    | some msgId =>
      cases hdc : env.deliveryConfirmed with
      | true =>
        cases hcd : client.hasEnterCooldown <;>
          simp [dispatch, hc, hd, hs, hm, hw, hdc, hcd] <;>
          first
        | exact ⟨_, _, ⟨rfl, rfl⟩, by intros; simp_all, by intros; simp_all⟩
        | exact ⟨_, _, ⟨rfl, rfl⟩, by intros; simp_all⟩
        | (intros; simp_all)
      | false =>
        simp [dispatch, hc, hd, hs, hm, hw, hdc] <;>
          first
        | exact ⟨_, _, ⟨rfl, rfl⟩, by intros; simp_all, by intros; simp_all⟩
        | exact ⟨_, _, ⟨rfl, rfl⟩, by intros; simp_all⟩
        | (intros; simp_all)

/-- The concrete confirmed-delivery scenario used as C6's witness input. -/
def deliveredClient : DClient := ⟨"chip-2", true, true⟩

def deliveredEnv : DispatchEnv :=
  ⟨some deliveredClient, .ok (), .ok ⟨some "MID-2", some "jid-2"⟩, true, 7, []⟩

def deliveredPayload : DispatchPayload :=
  ⟨"5511888887777", "", [], some "cm-2", ⟨some 1000, some 2000⟩, false⟩

/-- Witness for the amended C6 at the confirmed-delivery scenario. -/
theorem dispatch_cooldown_only_when_delivered_witness :
    deliveredEnv.nextClient = some deliveredClient ∧
    deliveredPayload.dryRun = false ∧
    deliveredEnv.sendOutcome = Except.ok ⟨some "MID-2", some "jid-2"⟩ ∧
    (∃ res acts, dispatch deliveredEnv deliveredPayload = .ok (res, acts) ∧
      (res.status = "DELIVERED" → deliveredClient.hasEnterCooldown = true →
        DAction.enterCooldown (getVariableDelay deliveredPayload.delayConfig deliveredEnv.rand)
          ∈ acts) ∧
      (res.status = "SENT" → ∀ ms, ¬ DAction.enterCooldown ms ∈ acts)) :=
  ⟨rfl, rfl, rfl,
    dispatch_cooldown_only_when_delivered deliveredEnv deliveredPayload deliveredClient
      ⟨some "MID-2", some "jid-2"⟩ rfl (fun _ => rfl) rfl rfl⟩

/-- C10: when `dispatch` is called with `dryRun = true`, no side effect is
performed on the selected session — the only action that may occur is the
`waitUntilReady` probe; `sendMessage`, `waitForDelivery`, `enterCooldown` and
the typing-delay sleep never occur — yet the call resolves with status
`DELIVERED` and no provider `messageId`. -/
theorem dispatch_dryRun_no_session_effects
    (env : DispatchEnv) (p : DispatchPayload) (client : DClient)
    (hc : env.nextClient = some client)
    (hr : client.hasWaitUntilReady = true → env.readyOutcome = Except.ok ())
    (hd : p.dryRun = true) :
    ∃ res acts, dispatch env p = .ok (res, acts) ∧
      res.status = "DELIVERED" ∧ res.messageId = none ∧
      ∀ a ∈ acts, a = DAction.waitUntilReady 30000 := by
  cases hw : client.hasWaitUntilReady with
  | true =>
    have hro := hr hw
    simp [dispatch, hc, hd, hw, hro]
    exact ⟨_, _, ⟨rfl, rfl⟩, rfl, rfl, by simp⟩
  | false =>
    simp [dispatch, hc, hd, hw]
    exact ⟨_, _, ⟨rfl, rfl⟩, rfl, rfl, by simp⟩

/-- The concrete dry-run scenario used as C10's witness input. -/
def dryRunPayload : DispatchPayload :=
  ⟨"5511777776666", "", [], some "cm-3", ⟨some 1000, some 2000⟩, true⟩

/-- Witness for C10: the dry-run call on the confirmed-delivery environment
performs no session side effect and still resolves `DELIVERED`. -/
theorem dispatch_dryRun_no_session_effects_witness :
    deliveredEnv.nextClient = some deliveredClient ∧
    dryRunPayload.dryRun = true ∧
    (∃ res acts, dispatch deliveredEnv dryRunPayload = .ok (res, acts) ∧
      res.status = "DELIVERED" ∧ res.messageId = none ∧
      ∀ a ∈ acts, a = DAction.waitUntilReady 30000) :=
  ⟨rfl, rfl,
    dispatch_dryRun_no_session_effects deliveredEnv dryRunPayload deliveredClient
      rfl (fun _ => rfl) rfl⟩

/-! C9 lemmas: the incoming map and the previous-loop characterization. -/

theorem lookupKey_append {α : Type} (a b : List (String × α)) (k : String) :
    lookupKey (a ++ b) k =
      (match lookupKey a k with
       | some v => some v
       | none => lookupKey b k) := by
  induction a with
  | nil => simp [lookupKey]
  | cons e rest ih =>
    by_cases he : e.1 = k <;> simp [lookupKey, he, ih]

theorem objSet_absent {α : Type} (m : List (String × α)) (k : String) (v : α)
    (h : lookupKey m k = none) : objSet m k v = m ++ [(k, v)] := by
  induction m with
  | nil => simp [objSet]
  | cons e rest ih =>
    by_cases he : e.1 = k
    · simp [lookupKey, he] at h
    · simp [lookupKey, he] at h
      simp [objSet, he, ih h]

theorem lookupKey_filter_ne {α : Type} (m : List (String × α)) (k k2 : String)
    (hne : k2 ≠ k) :
    lookupKey (m.filter (fun e => !(e.1 = k))) k2 = lookupKey m k2 := by
  induction m with
  | nil => rfl
  | cons e rest ih =>
    by_cases he : e.1 = k
    · have hek2 : ¬ e.1 = k2 := fun h2 => hne (by rw [← h2, he])
      rw [List.filter_cons]
      simp [lookupKey, he, hek2, ih, Ne.symm hne]
    · rw [List.filter_cons]
      by_cases he2 : e.1 = k2 <;> simp [lookupKey, he, he2, ih, hne]

theorem filter_ne_of_lookupKey_none {α : Type} (m : List (String × α)) (k : String)
    (h : lookupKey m k = none) : m.filter (fun e => !(e.1 = k)) = m := by
  induction m with
  | nil => rfl
  | cons e rest ih =>
    by_cases he : e.1 = k
    · simp [lookupKey, he] at h
    · simp [lookupKey, he] at h
      rw [List.filter_cons]
      simp [he, ih h]

/-- Building `new Map(incoming.map(s => [s.id, s]))` over duplicate-free ids
yields the plain keyed list. -/
theorem buildMap_nodup (inc : List JSession) (m : List (String × JSession))
    (hnd : (inc.map JSession.id).Nodup)
    (habs : ∀ s ∈ inc, lookupKey m s.id = none) :
    inc.foldl (fun acc s => objSet acc s.id s) m = m ++ inc.map (fun s => (s.id, s)) := by
  induction inc generalizing m with
  | nil => simp
  | cons s rest ih =>
    have hh : (∀ x ∈ rest, ¬ x.id = s.id) ∧ (rest.map JSession.id).Nodup := by
      simpa using hnd
    have hset : objSet m s.id s = m ++ [(s.id, s)] := objSet_absent m s.id s (habs s (by simp))
    have habs2 : ∀ t ∈ rest, lookupKey (m ++ [(s.id, s)]) t.id = none := by
      intro t ht
      rw [lookupKey_append]
      have h1 : lookupKey m t.id = none := habs t (by simp [ht])
      have h2 : ¬ s.id = t.id := fun he => hh.1 t ht he.symm
      simp [h1, lookupKey, h2]
    simp only [List.foldl_cons, hset]
    rw [ih (m ++ [(s.id, s)]) hh.2 habs2]
    simp

theorem jsMapGet_keyed (inc : List JSession) (k : String) :
    jsMapGet (inc.map (fun s => (s.id, s))) k = inc.find? (fun u => u.id = k) := by
  induction inc with
  | nil => rfl
  | cons s rest ih =>
    by_cases hs : s.id = k <;> simp [jsMapGet, lookupKey, List.find?, hs] <;> exact ih

theorem jsMapDelete_absent (m : List (String × JSession)) (k : String)
    (h : jsMapGet m k = none) : jsMapDelete m k = m :=
  filter_ne_of_lookupKey_none m k h

theorem jsMapGet_delete_other (m : List (String × JSession)) (k k2 : String)
    (hne : k2 ≠ k) : jsMapGet (jsMapDelete m k) k2 = jsMapGet m k2 :=
  lookupKey_filter_ne m k k2 hne

/-- Characterization of the `previous.forEach` loop over duplicate-free
previous ids: pushed entries are the filterMap over the original map, and the
final map is the fold of the handled deletions. -/
theorem mergeLoop_spec (prev : List JSession) (mp : List (String × JSession))
    (hnd : (prev.map JSession.id).Nodup) :
    (mergeLoop prev mp).1 = prev.filterMap (fun p =>
        match jsMapGet mp p.id with
        | some u => some (mergeRecord p u)
        | none => if p.id.startsWith "temp_" then some p else none) ∧
    (mergeLoop prev mp).2 = prev.foldl (fun m p => jsMapDelete m p.id) mp := by
  induction prev generalizing mp with
  | nil => simp [mergeLoop]
  | cons p rest ih =>
    have hh : (∀ x ∈ rest, ¬ x.id = p.id) ∧ (rest.map JSession.id).Nodup := by
      simpa using hnd
    have hcongr : ∀ q ∈ rest,
        (match jsMapGet (jsMapDelete mp p.id) q.id with
         | some u => some (mergeRecord q u)
         | none => if q.id.startsWith "temp_" then some q else none) =
        (match jsMapGet mp q.id with
         | some u => some (mergeRecord q u)
         | none => if q.id.startsWith "temp_" then some q else none) := by
      intro q hq
      rw [jsMapGet_delete_other mp p.id q.id (hh.1 q hq)]
    cases hg : jsMapGet mp p.id with
    | some u =>
      have ihd := ih (jsMapDelete mp p.id) hh.2
      constructor
      · simp only [mergeLoop, hg, List.filterMap_cons, ihd.1]
        rw [List.filterMap_congr hcongr]
      · simp only [mergeLoop, hg, List.foldl_cons, ihd.2]
    | none =>
      have ihd := ih mp hh.2
      constructor
      · simp only [mergeLoop, hg, List.filterMap_cons, ihd.1]
        cases ht : p.id.startsWith "temp_" <;> simp [ht]
      · simp only [mergeLoop, hg, List.foldl_cons, ihd.2,
          jsMapDelete_absent mp p.id hg]

/-- Folding the handled deletions over a map filters out the entries whose key
occurs among the previous ids. -/
theorem foldl_delete_filter (prev : List JSession) (m : List (String × JSession)) :
    prev.foldl (fun acc p => jsMapDelete acc p.id) m =
      m.filter (fun e => !prev.any (fun p => e.1 = p.id)) := by
  induction prev generalizing m with
  | nil => simp
  | cons p rest ih =>
    rw [List.foldl_cons, ih (jsMapDelete m p.id)]
    show List.filter _ (List.filter _ m) = _
    rw [List.filter_filter]
    apply List.filter_congr
    intro e _
    by_cases hep : e.1 = p.id <;> simp [hep]

/-- C9 counterexample: with a duplicate id in `incoming`, the `Map` keyed by id
collapses the two incoming sessions, so not every incoming session without a
previous counterpart is appended — the claim fails as stated over all lists. -/
theorem mergeSessions_duplicate_ids_cex :
    mergeSessions [] [⟨"b", [("v", "1")]⟩, ⟨"b", [("v", "2")]⟩] =
      [⟨"b", [("v", "2")]⟩] ∧
    mergeSessionsSpec [] [⟨"b", [("v", "1")]⟩, ⟨"b", [("v", "2")]⟩] =
      [⟨"b", [("v", "1")]⟩, ⟨"b", [("v", "2")]⟩] ∧
    mergeSessions [] [⟨"b", [("v", "1")]⟩, ⟨"b", [("v", "2")]⟩] ≠
      mergeSessionsSpec [] [⟨"b", [("v", "1")]⟩, ⟨"b", [("v", "2")]⟩] := by
  refine ⟨by decide, by decide, by decide⟩

/-- C9 (amended): for all session lists whose ids are duplicate-free within
`previous` and within `incoming`, `mergeSessions(previous, incoming)` returns
exactly: each previous session whose id appears in incoming, merged field-wise
with incoming values taking precedence; each previous session absent from
incoming kept iff its id starts with `temp_`; and every incoming session with
no previous counterpart appended — so every non-temp previous session missing
from the incoming snapshot is dropped. -/
theorem mergeSessions_eq_spec (previous incoming : List JSession)
    (hp : (previous.map JSession.id).Nodup) (hi : (incoming.map JSession.id).Nodup) :
    mergeSessions previous incoming = mergeSessionsSpec previous incoming := by
  have hbuild : incoming.foldl (fun m s => objSet m s.id s) [] =
      incoming.map (fun s => (s.id, s)) := by
    simpa using buildMap_nodup incoming [] hi (fun s _ => rfl)
  have hml := mergeLoop_spec previous (incoming.map (fun s => (s.id, s))) hp
  show (mergeLoop previous (incoming.foldl (fun m s => objSet m s.id s) [])).1 ++
      ((mergeLoop previous (incoming.foldl (fun m s => objSet m s.id s) [])).2.map
        (fun e => e.2)) = _
  rw [hbuild, hml.1, hml.2, foldl_delete_filter]
  unfold mergeSessionsSpec
  congr 1
  · apply List.filterMap_congr
    intro p _
    rw [jsMapGet_keyed]
  · rw [List.filter_map, List.map_map]
    have hid : ((fun e : String × JSession => e.2) ∘ fun s : JSession => (s.id, s)) =
        fun s : JSession => s := rfl
    rw [hid]
    have hmapid : List.map (fun s : JSession => s)
        (List.filter ((fun e => !previous.any fun p => decide (e.1 = p.id)) ∘
          fun s : JSession => (s.id, s)) incoming) =
        List.filter ((fun e => !previous.any fun p => decide (e.1 = p.id)) ∘
          fun s : JSession => (s.id, s)) incoming := List.map_id _
    rw [hmapid]
    apply List.filter_congr
    intro u _
    have : (fun p : JSession => decide (u.id = p.id)) =
        fun p : JSession => decide (p.id = u.id) := by
      funext p
      exact decide_eq_decide.mpr eq_comm
    simp only [Function.comp]
    rw [this]

/-- Witness for the amended C9 on a concrete reconciliation. -/
theorem mergeSessions_eq_spec_witness :
    (([⟨"a", [("x", "1")]⟩, ⟨"temp_9", []⟩, ⟨"gone", []⟩] :
        List JSession).map JSession.id).Nodup ∧
    (([⟨"a", [("x", "2")]⟩, ⟨"new", []⟩] : List JSession).map JSession.id).Nodup ∧
    mergeSessions [⟨"a", [("x", "1")]⟩, ⟨"temp_9", []⟩, ⟨"gone", []⟩]
        [⟨"a", [("x", "2")]⟩, ⟨"new", []⟩] =
      mergeSessionsSpec [⟨"a", [("x", "1")]⟩, ⟨"temp_9", []⟩, ⟨"gone", []⟩]
        [⟨"a", [("x", "2")]⟩, ⟨"new", []⟩] :=
  ⟨by decide, by decide,
    mergeSessions_eq_spec _ _ (by decide) (by decide)⟩

/-! Loop lemmas for C1 and C2. -/

/-- Every iteration writes exactly one `messageStatus` entry, keyed by the
contact's client message id. -/
theorem processContact_messageStatus (campaignId today : String) (hour : Nat)
    (isLast : Bool) (c : Contact) (outcome : Except String (String × Nat))
    (st : CState) (stats : Option DailyStats) :
    ∃ v, (processContact campaignId today hour isLast c outcome st stats).1.messageStatus =
      objSet st.messageStatus (cmid c) v := by
  cases outcome with
  | ok sw =>
    obtain ⟨status, w⟩ := sw
    refine ⟨⟨campaignId, contactIdOf c, c.phone, status, none⟩, ?_⟩
    by_cases hc : (status = "DELIVERED" || status = "SENT") = true <;>
      simp [processContact, hc]
  | error e =>
    exact ⟨⟨campaignId, contactIdOf c, c.phone, "FAILED", some e⟩,
      by simp [processContact]⟩

/-- Under dispatcher-shaped outcomes every handled contact's row is appended to
`processedRows`, in both the success and the failure branch. -/
theorem runLoop_processedRows (campaignId today : String) (hour : Nat)
    (outcomes : Nat → Except String (String × Nat)) (l : List Contact)
    (st : CState) (stats : Option DailyStats)
    (hsane : ∀ r s w, outcomes r = .ok (s, w) → s = "DELIVERED" ∨ s = "SENT") :
    (runLoop campaignId today hour outcomes l st stats).1.processedRows =
      st.processedRows ++ l.map Contact.row := by
  induction l generalizing st stats with
  | nil => simp [runLoop]
  | cons c rest ih =>
    have hstep : (processContact campaignId today hour rest.isEmpty c (outcomes c.row)
        st stats).1.processedRows = st.processedRows ++ [c.row] := by
      cases hout : outcomes c.row with
      | ok sw =>
        obtain ⟨s, w⟩ := sw
        have hcond : (s = "DELIVERED" || s = "SENT") = true := by
          rcases hsane c.row s w hout with h | h <;> simp [h]
        simp [processContact, hcond]
      | error e => simp [processContact]
    simp only [runLoop]
    rw [ih _ _, hstep]
    simp

/-- The failure log after a run is the initial log plus one `(row, error)`
entry per thrown dispatch, in loop order. -/
theorem runLoop_failedRows (campaignId today : String) (hour : Nat)
    (outcomes : Nat → Except String (String × Nat)) (l : List Contact)
    (st : CState) (stats : Option DailyStats) :
    (runLoop campaignId today hour outcomes l st stats).1.failedRows =
      st.failedRows ++ l.filterMap (fun c =>
        match outcomes c.row with
        | .error e => some (c.row, e)
        | .ok _ => none) := by
  induction l generalizing st stats with
  | nil => simp [runLoop]
  | cons c rest ih =>
    cases hout : outcomes c.row with
    | ok sw =>
      obtain ⟨s, w⟩ := sw
      have hstep : (processContact campaignId today hour rest.isEmpty c (outcomes c.row)
          st stats).1.failedRows = st.failedRows := by
        by_cases hc : (s = "DELIVERED" || s = "SENT") = true <;> simp [processContact, hout, hc]
      simp only [runLoop]
      rw [ih _ _, hstep, List.filterMap_cons]
      simp [hout]
    | error e =>
      have hstep : (processContact campaignId today hour rest.isEmpty c (outcomes c.row)
          st stats).1.failedRows = st.failedRows ++ [(c.row, e)] := by
        simp [processContact, hout]
      simp only [runLoop]
      rw [ih _ _, hstep, List.filterMap_cons]
      simp [hout]

/-- A `messageStatus` entry at a key no remaining contact generates is
preserved by the rest of the loop. -/
theorem runLoop_messageStatus_preserved (campaignId today : String) (hour : Nat)
    (outcomes : Nat → Except String (String × Nat)) (l : List Contact)
    (st : CState) (stats : Option DailyStats) (k : String)
    (hk : ∀ c ∈ l, cmid c ≠ k) :
    lookupKey (runLoop campaignId today hour outcomes l st stats).1.messageStatus k =
      lookupKey st.messageStatus k := by
  induction l generalizing st stats with
  | nil => simp [runLoop]
  | cons c rest ih =>
    obtain ⟨v, hv⟩ := processContact_messageStatus campaignId today hour rest.isEmpty c
      (outcomes c.row) st stats
    simp only [runLoop]
    rw [ih _ _ (fun c2 h2 => hk c2 (by simp [h2])), hv,
      lookupKey_objSet_other _ _ _ _ (fun he => hk c (by simp) he.symm)]

/-- A thrown dispatch records a `FAILED` entry, with the error message, in
`messageStatus` under the contact's client message id, and the entry survives
to the end of the run when client message ids are fresh. -/
theorem runLoop_failed_messageStatus (campaignId today : String) (hour : Nat)
    (outcomes : Nat → Except String (String × Nat)) (l : List Contact)
    (st : CState) (stats : Option DailyStats) (c : Contact) (e : String)
    (hmem : c ∈ l) (hout : outcomes c.row = .error e)
    (hkeys : (l.map cmid).Nodup) :
    lookupKey (runLoop campaignId today hour outcomes l st stats).1.messageStatus (cmid c) =
      some ⟨campaignId, contactIdOf c, c.phone, "FAILED", some e⟩ := by
  induction l generalizing st stats with
  | nil => simp at hmem
  | cons c0 rest ih =>
    have hh : (∀ x ∈ rest, ¬ cmid x = cmid c0) ∧ (rest.map cmid).Nodup := by
      constructor
      · intro x hx he
        exact ((List.nodup_cons.mp (by simpa using hkeys)).1) (he ▸ List.mem_map_of_mem cmid hx)
      · exact (List.nodup_cons.mp (by simpa using hkeys)).2
    rcases List.mem_cons.mp hmem with hc | hc
    · subst hc
      have hstep : (processContact campaignId today hour rest.isEmpty c (outcomes c.row)
          st stats).1.messageStatus =
          objSet st.messageStatus (cmid c)
            ⟨campaignId, contactIdOf c, c.phone, "FAILED", some e⟩ := by
        simp [processContact, hout]
      simp only [runLoop]
      rw [runLoop_messageStatus_preserved campaignId today hour outcomes rest _ _ (cmid c)
        (fun c2 h2 => hh.1 c2 h2), hstep, lookupKey_objSet_self]
    · simp only [runLoop]
      exact ih _ _ hc hh.2

/-- A thrown dispatch emits the `FAILED` message-status event. -/
theorem runLoop_failed_event (campaignId today : String) (hour : Nat)
    (outcomes : Nat → Except String (String × Nat)) (l : List Contact)
    (st : CState) (stats : Option DailyStats) (c : Contact) (e : String)
    (hmem : c ∈ l) (hout : outcomes c.row = .error e) :
    Event.messageStatusEv (cmid c) "FAILED" c.phone (some e) ∈
      (runLoop campaignId today hour outcomes l st stats).2.2 := by
  induction l generalizing st stats with
  | nil => simp at hmem
  | cons c0 rest ih =>
    rcases List.mem_cons.mp hmem with hc | hc
    · subst hc
      have hstep : Event.messageStatusEv (cmid c) "FAILED" c.phone (some e) ∈
          (processContact campaignId today hour rest.isEmpty c (outcomes c.row)
            st stats).2.2 := by
        simp [processContact, hout]
      simp only [runLoop]
      exact List.mem_append.mpr (Or.inl hstep)
    · simp only [runLoop]
      exact List.mem_append.mpr (Or.inr (ih _ _ hc))

/-- The one-contact failing run used as C1's counterexample. -/
def failingRun : RunOut :=
  startCampaign none "camp-cex" ⟨"t", "list.xlsx", "list.xlsx", none, none⟩
    (.ok [⟨1, "p1"⟩]) true "2026-10-11" 12 none (fun _ => .error "boom")

/-- Counterexample to C1: after a full run in which contact row 1's dispatch
throws, row 1 is recorded in `processedRows` and in `failedRows` at once — the
error path appends the row to both collections. -/
theorem row_in_both_collections_cex :
    1 ∈ failingRun.final.processedRows ∧
    1 ∈ failingRun.final.failedRows.map Prod.fst ∧
    failingRun.disk = some failingRun.final := by
  refine ⟨by decide, by decide, by decide⟩

/-- C1 (amended): for every campaign state reached after a full run of the
dispatch loop, each handled contact row appears in `processedRows`; it
additionally appears in `failedRows` exactly when its dispatch threw — so a
failed row is recorded in both collections, a successful row only in
`processedRows`. -/
theorem runLoop_rows_partition (campaignId today : String) (hour : Nat)
    (outcomes : Nat → Except String (String × Nat)) (l : List Contact)
    (st : CState) (stats : Option DailyStats)
    (hsane : ∀ r s w, outcomes r = .ok (s, w) → s = "DELIVERED" ∨ s = "SENT")
    (hfail0 : ∀ c ∈ l, ∀ e, (c.row, e) ∉ st.failedRows) :
    ∀ c ∈ l, c.row ∈ (runLoop campaignId today hour outcomes l st stats).1.processedRows ∧
      ((∃ e, (c.row, e) ∈ (runLoop campaignId today hour outcomes l st stats).1.failedRows) ↔
        (∃ e, outcomes c.row = .error e)) := by
  intro c hmem
  constructor
  · rw [runLoop_processedRows campaignId today hour outcomes l st stats hsane]
    exact List.mem_append.mpr (Or.inr (List.mem_map_of_mem Contact.row hmem))
  · rw [runLoop_failedRows campaignId today hour outcomes l st stats]
    constructor
    · rintro ⟨e, he⟩
      rcases List.mem_append.mp he with h0 | h1
      · exact absurd h0 (hfail0 c hmem e)
      · rcases List.mem_filterMap.mp h1 with ⟨c2, _, hf⟩
        cases hout2 : outcomes c2.row with
        | ok sw => rw [hout2] at hf; simp at hf
        | error e2 =>
          rw [hout2] at hf
          simp at hf
          rw [← hf.1, hout2]
          exact ⟨e2, rfl⟩
    · rintro ⟨e, he⟩
      refine ⟨e, List.mem_append.mpr (Or.inr (List.mem_filterMap.mpr ⟨c, hmem, ?_⟩))⟩
      rw [he]

/-- Witness for the amended C1: a three-contact run with one failure. -/
theorem runLoop_rows_partition_witness :
    (∀ r s w, (fun r => if r = 2 then Except.error "boom"
        else Except.ok (("DELIVERED", 100) : String × Nat)) r = .ok (s, w) →
      s = "DELIVERED" ∨ s = "SENT") ∧
    (∀ c ∈ ([⟨1, "p1"⟩, ⟨2, "p2"⟩, ⟨3, "p3"⟩] : List Contact), ∀ e,
      (c.row, e) ∉ defaultState.failedRows) ∧
    (∀ c ∈ ([⟨1, "p1"⟩, ⟨2, "p2"⟩, ⟨3, "p3"⟩] : List Contact),
      c.row ∈ (runLoop "camp-w" "2026-10-11" 12
        (fun r => if r = 2 then Except.error "boom"
          else Except.ok (("DELIVERED", 100) : String × Nat))
        [⟨1, "p1"⟩, ⟨2, "p2"⟩, ⟨3, "p3"⟩] defaultState none).1.processedRows ∧
      ((∃ e, (c.row, e) ∈ (runLoop "camp-w" "2026-10-11" 12
          (fun r => if r = 2 then Except.error "boom"
            else Except.ok (("DELIVERED", 100) : String × Nat))
          [⟨1, "p1"⟩, ⟨2, "p2"⟩, ⟨3, "p3"⟩] defaultState none).1.failedRows) ↔
        (∃ e, (fun r => if r = 2 then Except.error "boom"
          else Except.ok (("DELIVERED", 100) : String × Nat)) c.row = .error e))) := by
  have hsane : ∀ r s w, (fun r => if r = 2 then Except.error "boom"
      else Except.ok (("DELIVERED", 100) : String × Nat)) r = .ok (s, w) →
      s = "DELIVERED" ∨ s = "SENT" := by
    intro r s w h
    by_cases hr : r = 2 <;> simp [hr] at h
    exact Or.inl h.1.symm
  have hfail0 : ∀ c ∈ ([⟨1, "p1"⟩, ⟨2, "p2"⟩, ⟨3, "p3"⟩] : List Contact), ∀ e,
      (c.row, e) ∉ defaultState.failedRows := by
    intro c _ e h
    simp [defaultState] at h
  exact ⟨hsane, hfail0,
    runLoop_rows_partition "camp-w" "2026-10-11" 12 _ _ defaultState none hsane hfail0⟩

/-- C2: for every contact whose dispatch throws, the orchestrator appends
`(row, error)` to `failedRows`, records a `FAILED` entry (with the error) in
`messageStatus` under the generated client message id, emits the failure
event, and also appends the row to `processedRows`, so the contact is
filtered out of any later run of the same campaign. -/
theorem runLoop_error_contact_handling (campaignId today : String) (hour : Nat)
    (outcomes : Nat → Except String (String × Nat)) (l : List Contact)
    (st : CState) (stats : Option DailyStats) (c : Contact) (e : String)
    (hsane : ∀ r s w, outcomes r = .ok (s, w) → s = "DELIVERED" ∨ s = "SENT")
    (hmem : c ∈ l) (hout : outcomes c.row = .error e)
    (hkeys : (l.map cmid).Nodup) :
    (c.row, e) ∈ (runLoop campaignId today hour outcomes l st stats).1.failedRows ∧
    lookupKey (runLoop campaignId today hour outcomes l st stats).1.messageStatus (cmid c) =
      some ⟨campaignId, contactIdOf c, c.phone, "FAILED", some e⟩ ∧
    Event.messageStatusEv (cmid c) "FAILED" c.phone (some e) ∈
      (runLoop campaignId today hour outcomes l st stats).2.2 ∧
    c.row ∈ (runLoop campaignId today hour outcomes l st stats).1.processedRows := by
  refine ⟨?_, ?_, ?_, ?_⟩
  · rw [runLoop_failedRows campaignId today hour outcomes l st stats]
    refine List.mem_append.mpr (Or.inr (List.mem_filterMap.mpr ⟨c, hmem, ?_⟩))
    rw [hout]
  · exact runLoop_failed_messageStatus campaignId today hour outcomes l st stats c e
      hmem hout hkeys
  · exact runLoop_failed_event campaignId today hour outcomes l st stats c e hmem hout
  · rw [runLoop_processedRows campaignId today hour outcomes l st stats hsane]
    exact List.mem_append.mpr (Or.inr (List.mem_map_of_mem Contact.row hmem))

/-- Witness for C2: contact row 2 of the three-contact run fails with "boom". -/
theorem runLoop_error_contact_handling_witness :
    (fun r => if r = 2 then Except.error "boom"
      else Except.ok (("DELIVERED", 100) : String × Nat)) (2 : Nat) = .error "boom" ∧
    (([⟨1, "p1"⟩, ⟨2, "p2"⟩, ⟨3, "p3"⟩] : List Contact).map cmid).Nodup ∧
    ((2, "boom") ∈ (runLoop "camp-w" "2026-10-11" 12
        (fun r => if r = 2 then Except.error "boom"
          else Except.ok (("DELIVERED", 100) : String × Nat))
        [⟨1, "p1"⟩, ⟨2, "p2"⟩, ⟨3, "p3"⟩] defaultState none).1.failedRows ∧
      lookupKey (runLoop "camp-w" "2026-10-11" 12
          (fun r => if r = 2 then Except.error "boom"
            else Except.ok (("DELIVERED", 100) : String × Nat))
          [⟨1, "p1"⟩, ⟨2, "p2"⟩, ⟨3, "p3"⟩] defaultState none).1.messageStatus
          (cmid ⟨2, "p2"⟩) =
        some ⟨"camp-w", contactIdOf ⟨2, "p2"⟩, "p2", "FAILED", some "boom"⟩ ∧
      Event.messageStatusEv (cmid ⟨2, "p2"⟩) "FAILED" "p2" (some "boom") ∈
        (runLoop "camp-w" "2026-10-11" 12
          (fun r => if r = 2 then Except.error "boom"
            else Except.ok (("DELIVERED", 100) : String × Nat))
          [⟨1, "p1"⟩, ⟨2, "p2"⟩, ⟨3, "p3"⟩] defaultState none).2.2 ∧
      (2 : Nat) ∈ (runLoop "camp-w" "2026-10-11" 12
          (fun r => if r = 2 then Except.error "boom"
            else Except.ok (("DELIVERED", 100) : String × Nat))
          [⟨1, "p1"⟩, ⟨2, "p2"⟩, ⟨3, "p3"⟩] defaultState none).1.processedRows) := by
  have hsane : ∀ r s w, (fun r => if r = 2 then Except.error "boom"
      else Except.ok (("DELIVERED", 100) : String × Nat)) r = .ok (s, w) →
      s = "DELIVERED" ∨ s = "SENT" := by
    intro r s w h
    by_cases hr : r = 2 <;> simp [hr] at h
    exact Or.inl h.1.symm
  refine ⟨rfl, by decide, ?_⟩
  exact runLoop_error_contact_handling "camp-w" "2026-10-11" 12 _ _ defaultState none
    ⟨2, "p2"⟩ "boom" hsane (by decide) rfl (by decide)

/-! C5: persist timing of the reset in startCampaign. -/

/-- The persisted campaign an overriding start finds on disk. -/
def staleDisk : CState := ⟨some "camp-old", 10, [5], [(5, "legacy failure")], [], [], none⟩

/-- Counterexample to C5: starting with a different `campaignId` resets the
collections only in memory; the first persist happens after the contact file
is parsed, so when parsing throws, the durable state file still holds the old
campaign (`camp-old`, `processedRows = [5]`) — the reset state was not
persisted before that fallible step. -/
theorem reset_not_persisted_before_parse_cex :
    (startCampaign (some staleDisk) "camp-new" ⟨"t", "x.xlsx", "x.xlsx", none, none⟩
        (.error "parse failure") true "2026-10-11" 12 none
        (fun _ => .error "unused")).result = .error "parse failure" ∧
    (startCampaign (some staleDisk) "camp-new" ⟨"t", "x.xlsx", "x.xlsx", none, none⟩
        (.error "parse failure") true "2026-10-11" 12 none
        (fun _ => .error "unused")).disk = some staleDisk ∧
    staleDisk.campaignId = some "camp-old" ∧ staleDisk.processedRows = [5] := by
  refine ⟨rfl, by decide, by decide, by decide⟩

/-- C5 (amended): for every `startCampaign` call with a `campaignId` different
from the one on record, all progress collections are reset and the new id
adopted in memory, but the reset state is first persisted only together with
`totalContacts`, after the contact source has been parsed: when the parse
throws, the durable file keeps the previous campaign's state; when the parse
succeeds, the first persisted document is the reset state with the new id,
empty collections, the new config and the parsed total. -/
theorem startCampaign_reset_persist_timing (disk : Option CState)
    (oldId newId : String) (cfg : CampaignConfig) (e : String)
    (contacts : List Contact) (ready : Bool) (today : String) (hour : Nat)
    (stats0 : Option DailyStats) (outcomes : Nat → Except String (String × Nat))
    (hold : (loadState disk).campaignId = some oldId) (hne : oldId ≠ newId)
    (hcontacts : contacts ≠ []) :
    (startCampaign disk newId cfg (.error e) ready today hour stats0 outcomes).result =
      .error e ∧
    (startCampaign disk newId cfg (.error e) ready today hour stats0 outcomes).disk =
      disk ∧
    (startCampaign disk newId cfg (.ok contacts) false today hour stats0 outcomes).disk =
      some ⟨some newId, contacts.length, [], [], [], [], some cfg⟩ := by
  have hcond : ((loadState disk).campaignId.isSome &&
      !((loadState disk).campaignId = some newId : Bool)) = true := by
    rw [hold]
    simp
    intro habs
    exact hne habs
  refine ⟨?_, ?_, ?_⟩
  · simp [startCampaign, hold, hne]
  · simp [startCampaign, hold, hne]
  · have hfilter : contacts.filter
        (fun c => !(resetState newId cfg).processedRows.contains c.row) = contacts := by
      apply List.filter_eq_self.mpr
      intro c _
      simp [resetState]
    simp [startCampaign, hold, hne, resetState, hfilter, hcontacts]

/-- Witness for the amended C5 on the stale-disk example. -/
theorem startCampaign_reset_persist_timing_witness :
    (loadState (some staleDisk)).campaignId = some "camp-old" ∧
    ("camp-old" : String) ≠ "camp-new" ∧
    ([⟨1, "p1"⟩] : List Contact) ≠ [] ∧
    ((startCampaign (some staleDisk) "camp-new" ⟨"t", "x.xlsx", "x.xlsx", none, none⟩
        (.error "parse failure") true "2026-10-11" 12 none
        (fun _ => .error "unused")).result = .error "parse failure" ∧
     (startCampaign (some staleDisk) "camp-new" ⟨"t", "x.xlsx", "x.xlsx", none, none⟩
        (.error "parse failure") true "2026-10-11" 12 none
        (fun _ => .error "unused")).disk = some staleDisk ∧
     (startCampaign (some staleDisk) "camp-new" ⟨"t", "x.xlsx", "x.xlsx", none, none⟩
        (.ok [⟨1, "p1"⟩]) false "2026-10-11" 12 none
        (fun _ => .error "unused")).disk =
       some ⟨some "camp-new", 1, [], [], [], [],
         some ⟨"t", "x.xlsx", "x.xlsx", none, none⟩⟩) := by
  refine ⟨by decide, by decide, by decide, ?_⟩
  exact startCampaign_reset_persist_timing (some staleDisk) "camp-old" "camp-new"
    ⟨"t", "x.xlsx", "x.xlsx", none, none⟩ "parse failure" [⟨1, "p1"⟩] true
    "2026-10-11" 12 none (fun _ => .error "unused") (by decide) (by decide) (by decide)

/-! C8: segment decomposition of templates and the renderer theorem. -/

/-- A tokenized template: literal text, a brace placeholder, a bracket
placeholder, or a spintax variant group. -/
inductive TSeg where
  | lit (s : String)
  | brVar (k : String)
  | bkVar (k : String)
  | spin (alts : List String)
deriving DecidableEq, Repr

/-- Join chunk texts with the variant separator. -/
def joinSep : List (List Char) → List Char
  | [] => []
  | [a] => a
  | a :: rest => a ++ slashC :: joinSep rest

/-- The concrete text of one segment. -/
def flattenSeg : TSeg → List Char
  | .lit s => s.data
  | .brVar k => lbraceC :: k.data ++ [rbraceC]
  | .bkVar k => lbrackC :: k.data ++ [rbrackC]
  | .spin alts => lbraceC :: joinSep (alts.map String.data) ++ [rbraceC]

/-- The concrete text of a tokenized template. -/
def flattenSegs (segs : List TSeg) : List Char :=
  (segs.map flattenSeg).join

/-- Literal text safe for both scanner stages: no match-opening characters. -/
def litOk (s : String) : Prop :=
  ∀ c ∈ s.data, c ≠ lbraceC ∧ c ≠ lbrackC

/-- A placeholder key: non-empty, free of delimiters and separators. -/
def keyOk (k : String) : Prop :=
  k.data ≠ [] ∧ ∀ c ∈ k.data, braceStop c = false ∧ brackStop c = false

/-- A variant alternative: free of delimiters and separators. -/
def altOk (a : String) : Prop :=
  ∀ c ∈ a.data, braceStop c = false ∧ brackStop c = false

/-- Well-formedness of one segment. -/
def wfSeg : TSeg → Prop
  | .lit s => litOk s
  | .brVar k => keyOk k
  | .bkVar k => keyOk k
  | .spin alts => 2 ≤ alts.length ∧ ∀ a ∈ alts, altOk a

/-- The text one segment contributes after the variable-substitution pass. -/
def substSeg (nv : List (String × String)) : TSeg → List Char
  | .lit s => s.data
  | .brVar k => substMatch nv lbraceC rbraceC k.data
  | .bkVar k => substMatch nv lbrackC rbrackC k.data
  | .spin alts => flattenSeg (.spin alts)

/-- The spec-side renderer over segments: recognized placeholders replaced by
the variable's string value, unrecognized ones left verbatim, one alternative
picked per variant group (consuming one choice). -/
def renderSegs (nv : List (String × String)) : List Nat → List TSeg → List Char
  | _, [] => []
  | choices, .lit s :: rest => s.data ++ renderSegs nv choices rest
  | choices, .brVar k :: rest => substMatch nv lbraceC rbraceC k.data ++ renderSegs nv choices rest
  | choices, .bkVar k :: rest => substMatch nv lbrackC rbrackC k.data ++ renderSegs nv choices rest
  | choices, .spin alts :: rest =>
    (alts.map String.data).getD (choices.headD 0 % alts.length) [] ++
      renderSegs nv choices.tail rest

theorem scanKey_pass {stop : Char → Bool} (l : List Char) (x : Char) (r : List Char)
    (hl : ∀ c ∈ l, stop c = false) (hx : stop x = true) :
    scanKey stop (l ++ x :: r) = some (l, x, r) := by
  induction l with
  | nil => simp [scanKey, hx]
  | cons c rest ih =>
    have hc : stop c = false := hl c (by simp)
    simp only [List.cons_append, scanKey, hc, Bool.false_eq_true, if_false, List.append_eq]
    rw [ih (fun c2 h2 => hl c2 (by simp [h2]))]
    rfl

/-- Characters that open no variable match pass through the substitution
scanner unchanged. -/
theorem substVars_pass (nv : List (String × String)) (l r : List Char)
    (hl : ∀ c ∈ l, c ≠ lbraceC ∧ c ≠ lbrackC) :
    substVars nv (l ++ r) = l ++ substVars nv r := by
  induction l with
  | nil => rfl
  | cons c rest ih =>
    have hc := hl c (by simp)
    rw [List.cons_append, substVars]
    simp only [hc.1, hc.2, if_false]
    rw [ih (fun c2 h2 => hl c2 (by simp [h2]))]
    rfl

theorem braceStop_ne_lbrace {c : Char} (h : braceStop c = false) : c ≠ lbraceC := by
  intro he
  rw [he] at h
  simp [braceStop] at h

theorem brackStop_ne_lbrack {c : Char} (h : brackStop c = false) : c ≠ lbrackC := by
  intro he
  rw [he] at h
  simp [brackStop] at h

/-- A well-formed brace placeholder is matched and replaced by the scanner. -/
theorem substVars_brVar (nv : List (String × String)) (k : String) (r : List Char)
    (hk : keyOk k) :
    substVars nv (lbraceC :: (k.data ++ rbraceC :: r)) =
      substMatch nv lbraceC rbraceC k.data ++ substVars nv r := by
  have hscan : scanKey braceStop (k.data ++ rbraceC :: r) = some (k.data, rbraceC, r) :=
    scanKey_pass k.data rbraceC r (fun c hc => (hk.2 c hc).1) (by decide)
  have hbreak : breakBrace (k.data ++ rbraceC :: r) = some (k.data, r) := by
    unfold breakBrace
    rw [hscan]
    simp [List.isEmpty_iff, hk.1]
  rw [substVars, if_pos rfl]
  split
  · rename_i kr h
    rw [hbreak] at h
    injection h with h2
    rw [← h2]
  · rename_i h
    rw [hbreak] at h
    simp at h

/-- A well-formed bracket placeholder is matched and replaced by the scanner. -/
theorem substVars_bkVar (nv : List (String × String)) (k : String) (r : List Char)
    (hk : keyOk k) :
    substVars nv (lbrackC :: (k.data ++ rbrackC :: r)) =
      substMatch nv lbrackC rbrackC k.data ++ substVars nv r := by
  have hscan : scanKey brackStop (k.data ++ rbrackC :: r) = some (k.data, rbrackC, r) :=
    scanKey_pass k.data rbrackC r (fun c hc => (hk.2 c hc).2) (by decide)
  have hbreak : breakBracket (k.data ++ rbrackC :: r) = some (k.data, r) := by
    unfold breakBracket
    rw [hscan]
    simp [List.isEmpty_iff, hk.1]
  rw [substVars, if_neg (by decide), if_pos rfl]
  split
  · rename_i kr h
    rw [hbreak] at h
    injection h with h2
    rw [← h2]
  · rename_i h
    rw [hbreak] at h
    simp at h

theorem mem_joinSep {c : Char} :
    ∀ (parts : List (List Char)), c ∈ joinSep parts →
      c = slashC ∨ ∃ a ∈ parts, c ∈ a := by
  intro parts
  induction parts with
  | nil => intro h; simp [joinSep] at h
  | cons a rest ih =>
    intro h
    cases rest with
    | nil =>
      simp only [joinSep] at h
      exact Or.inr ⟨a, by simp, h⟩
    | cons b rest2 =>
      simp only [joinSep, List.mem_append, List.mem_cons] at h
      rcases h with h | h | h
      · exact Or.inr ⟨a, by simp, h⟩
      · exact Or.inl h
      · rcases ih h with h2 | ⟨a2, ha2, hc2⟩
        · exact Or.inl h2
        · exact Or.inr ⟨a2, by simp [ha2], hc2⟩

/-- A well-formed spintax group passes through the variable scanner verbatim
(its body contains a separator, so it is not a variable match). -/
theorem substVars_spin (nv : List (String × String)) (alts : List String) (r : List Char)
    (hlen : 2 ≤ alts.length) (halts : ∀ a ∈ alts, altOk a) :
    substVars nv (lbraceC :: (joinSep (alts.map String.data) ++ rbraceC :: r)) =
      lbraceC :: (joinSep (alts.map String.data) ++ rbraceC :: substVars nv r) := by
  obtain ⟨a1, a2, rest, hsplit⟩ : ∃ a1 a2 rest, alts = a1 :: a2 :: rest := by
    cases alts with
    | nil => simp at hlen
    | cons a1 t =>
      cases t with
      | nil => simp at hlen
      | cons a2 rest => exact ⟨a1, a2, rest, rfl⟩
  have hbodymem : ∀ c ∈ joinSep (alts.map String.data),
      c ≠ lbraceC ∧ c ≠ lbrackC := by
    intro c hc
    rcases mem_joinSep (alts.map String.data) hc with h | ⟨ad, had, hcd⟩
    · subst h
      exact ⟨by decide, by decide⟩
    · rcases List.mem_map.mp had with ⟨a, ha, hda⟩
      have := (halts a ha) c (by rw [hda]; exact hcd)
      exact ⟨braceStop_ne_lbrace this.1, brackStop_ne_lbrack this.2⟩
  have hjoin : joinSep (alts.map String.data) =
      a1.data ++ slashC :: joinSep ((a2 :: rest).map String.data) := by
    rw [hsplit]
    rfl
  have hbreak : breakBrace (joinSep (alts.map String.data) ++ rbraceC :: r) = none := by
    have hne : ¬ slashC = rbraceC := by decide
    unfold breakBrace
    rw [hjoin, List.append_assoc, List.cons_append,
      scanKey_pass a1.data slashC _
        (fun c hc => ((halts a1 (by rw [hsplit]; simp)) c hc).1) (by decide)]
    simp [hne]
  rw [substVars, if_pos rfl]
  split
  · rename_i kr h
    rw [hbreak] at h
    simp at h
  rw [substVars_pass nv (joinSep (alts.map String.data)) (rbraceC :: r) hbodymem]
  have hrb : substVars nv (rbraceC :: r) = rbraceC :: substVars nv r := by
    have := substVars_pass nv [rbraceC] r (by intro c hc; simp at hc; rw [hc]; exact ⟨by decide, by decide⟩)
    simpa using this
  rw [hrb]

/-- Stage one: on a well-formed tokenized template the variable-substitution
pass acts segment-wise. -/
theorem substVars_flatten (nv : List (String × String)) (segs : List TSeg)
    (hw : ∀ seg ∈ segs, wfSeg seg) :
    substVars nv (flattenSegs segs) = (segs.map (substSeg nv)).join := by
  induction segs with
  | nil =>
    simp only [flattenSegs, List.map_nil, List.join_nil]
    rw [substVars]
  | cons seg rest ih =>
    have hflat : flattenSegs (seg :: rest) = flattenSeg seg ++ flattenSegs rest := by
      simp [flattenSegs]
    have hrest := ih (fun s2 h2 => hw s2 (by simp [h2]))
    have hwseg := hw seg (by simp)
    rw [hflat]
    cases seg with
    | lit s =>
      rw [show flattenSeg (TSeg.lit s) = s.data from rfl,
        substVars_pass nv s.data (flattenSegs rest) hwseg, hrest]
      simp [substSeg]
    | brVar k =>
      have hsh : flattenSeg (TSeg.brVar k) ++ flattenSegs rest =
          lbraceC :: (k.data ++ rbraceC :: flattenSegs rest) := by
        simp [flattenSeg]
      rw [hsh, substVars_brVar nv k (flattenSegs rest) hwseg, hrest]
      simp [substSeg]
    | bkVar k =>
      have hsh : flattenSeg (TSeg.bkVar k) ++ flattenSegs rest =
          lbrackC :: (k.data ++ rbrackC :: flattenSegs rest) := by
        simp [flattenSeg]
      rw [hsh, substVars_bkVar nv k (flattenSegs rest) hwseg, hrest]
      simp [substSeg]
    | spin alts =>
      have hsh : flattenSeg (TSeg.spin alts) ++ flattenSegs rest =
          lbraceC :: (joinSep (alts.map String.data) ++ rbraceC :: flattenSegs rest) := by
        simp [flattenSeg]
      rw [hsh, substVars_spin nv alts (flattenSegs rest) hwseg.1 hwseg.2, hrest]
      simp [substSeg, flattenSeg]

theorem eq_false_of_braceStop {c : Char} (h : braceStop c = false) :
    ¬ c = lbraceC ∧ ¬ c = rbraceC ∧ ¬ c = pipeC ∧ ¬ c = slashC := by
  refine ⟨?_, ?_, ?_, ?_⟩ <;> intro he <;> rw [he] at h <;> simp [braceStop] at h

/-- Characters that are not an opening brace pass through the spintax stage
unchanged. -/
theorem spintaxParse_pass (ch : List Nat) (l r : List Char)
    (hl : ∀ c ∈ l, c ≠ lbraceC) :
    spintaxParse ch (l ++ r) = l ++ spintaxParse ch r := by
  induction l with
  | nil => rfl
  | cons c rest ih =>
    have hc := hl c (by simp)
    rw [List.cons_append, spintaxParse]
    simp only [hc, if_false]
    rw [ih (fun c2 h2 => hl c2 (by simp [h2]))]
    rfl

/-- A separator-free brace run is not a variant group: the spintax stage
leaves it verbatim. -/
theorem spintaxParse_verbatim (ch : List Nat) (k r : List Char)
    (hk : ∀ c ∈ k, braceStop c = false) :
    spintaxParse ch (lbraceC :: (k ++ rbraceC :: r)) =
      lbraceC :: (k ++ rbraceC :: spintaxParse ch r) := by
  have hstop : ∀ c ∈ k, (c = lbraceC || c = rbraceC) = false := by
    intro c hc
    have hb := eq_false_of_braceStop (hk c hc)
    simp [hb.1, hb.2.1]
  have hbreak : breakGroup (k ++ rbraceC :: r) = some (k, r) := by
    unfold breakGroup
    rw [scanKey_pass k rbraceC r hstop (by decide)]
    simp
  have hsep : k.any isSpinSep = false := by
    rw [List.any_eq_false]
    intro c hc
    have hb := eq_false_of_braceStop (hk c hc)
    simp [isSpinSep, hb.2.2.1, hb.2.2.2]
  rw [spintaxParse, if_pos rfl]
  split
  · rename_i br h
    rw [hbreak] at h
    injection h with h2
    rw [← h2]
    simp only [hsep, Bool.false_eq_true, if_false]
    simp
  · rename_i h
    rw [hbreak] at h
    simp at h

theorem splitSep_sepFree (a : List Char) (ha : ∀ c ∈ a, isSpinSep c = false) :
    splitSep a = [a] := by
  induction a with
  | nil => rfl
  | cons c rest ih =>
    have hc := ha c (by simp)
    rw [splitSep]
    simp only [hc, Bool.false_eq_true, if_false]
    rw [ih (fun c2 h2 => ha c2 (by simp [h2]))]

theorem splitSep_ne_nil (l : List Char) : splitSep l ≠ [] := by
  cases l with
  | nil => simp [splitSep]
  | cons c rest =>
    rw [splitSep]
    by_cases hc : isSpinSep c
    · simp [hc]
    · simp only [hc, Bool.false_eq_true, if_false]
      cases hs : splitSep rest <;> simp

theorem splitSep_prepend (a l : List Char) (ha : ∀ c ∈ a, isSpinSep c = false) :
    splitSep (a ++ l) = (a ++ (splitSep l).headD []) :: (splitSep l).tail := by
  induction a with
  | nil =>
    cases hs : splitSep l with
    | nil => exact absurd hs (splitSep_ne_nil l)
    | cons x xs => simp [hs]
  | cons c rest ih =>
    have hc := ha c (by simp)
    rw [List.cons_append, splitSep]
    simp only [hc, Bool.false_eq_true, if_false]
    rw [ih (fun c2 h2 => ha c2 (by simp [h2]))]
    simp

/-- Splitting inverts joining for separator-free chunks. -/
theorem splitSep_joinSep (parts : List (List Char)) (hne : parts ≠ [])
    (hfree : ∀ p ∈ parts, ∀ c ∈ p, isSpinSep c = false) :
    splitSep (joinSep parts) = parts := by
  induction parts with
  | nil => exact absurd rfl hne
  | cons a rest ih =>
    cases rest with
    | nil =>
      rw [show joinSep [a] = a from rfl]
      exact splitSep_sepFree a (hfree a (by simp))
    | cons b rest2 =>
      have hjoin : joinSep (a :: b :: rest2) = a ++ slashC :: joinSep (b :: rest2) := rfl
      rw [hjoin, splitSep_prepend a _ (hfree a (by simp))]
      have hsplit2 : splitSep (slashC :: joinSep (b :: rest2)) =
          [] :: splitSep (joinSep (b :: rest2)) := by
        rw [splitSep]
        simp [isSpinSep]
      rw [hsplit2, ih (by simp) (fun p hp => hfree p (by simp [hp]))]
      simp

/-- A well-formed variant group is resolved by the spintax stage: one
alternative picked by the next choice. -/
theorem spintaxParse_group (ch : List Nat) (alts : List String) (r : List Char)
    (hlen : 2 ≤ alts.length) (halts : ∀ a ∈ alts, altOk a) :
    spintaxParse ch (lbraceC :: (joinSep (alts.map String.data) ++ rbraceC :: r)) =
      (alts.map String.data).getD (ch.headD 0 % alts.length) [] ++
        spintaxParse ch.tail r := by
  have hfree : ∀ p ∈ alts.map String.data, ∀ c ∈ p, isSpinSep c = false := by
    intro p hp c hc
    rcases List.mem_map.mp hp with ⟨a, ha, hpa⟩
    have hb := eq_false_of_braceStop ((halts a ha) c (by rw [hpa]; exact hc)).1
    simp [isSpinSep, hb.2.2.1, hb.2.2.2]
  have hstop : ∀ c ∈ joinSep (alts.map String.data),
      (c = lbraceC || c = rbraceC) = false := by
    intro c hc
    rcases mem_joinSep (alts.map String.data) hc with h | ⟨ad, had, hcd⟩
    · subst h
      decide
    · rcases List.mem_map.mp had with ⟨a, ha, hda⟩
      have hb := eq_false_of_braceStop ((halts a ha) c (by rw [hda]; exact hcd)).1
      simp [hb.1, hb.2.1]
  have hbreak : breakGroup (joinSep (alts.map String.data) ++ rbraceC :: r) =
      some (joinSep (alts.map String.data), r) := by
    unfold breakGroup
    rw [scanKey_pass _ rbraceC r hstop (by decide)]
    simp
  obtain ⟨a1, a2, rest, hsplit⟩ : ∃ a1 a2 rest, alts = a1 :: a2 :: rest := by
    cases alts with
    | nil => simp at hlen
    | cons a1 t =>
      cases t with
      | nil => simp at hlen
      | cons a2 rest => exact ⟨a1, a2, rest, rfl⟩
  have hsep : (joinSep (alts.map String.data)).any isSpinSep = true := by
    rw [List.any_eq_true]
    refine ⟨slashC, ?_, by decide⟩
    rw [hsplit]
    show slashC ∈ a1.data ++ slashC :: joinSep ((a2 :: rest).map String.data)
    simp
  have hpick : spintaxPick (joinSep (alts.map String.data)) (ch.headD 0) =
      (alts.map String.data).getD (ch.headD 0 % alts.length) [] := by
    unfold spintaxPick
    rw [splitSep_joinSep (alts.map String.data) (by rw [hsplit]; simp) hfree]
    simp
  rw [spintaxParse, if_pos rfl]
  split
  · rename_i br h
    rw [hbreak] at h
    injection h with h2
    rw [← h2]
    simp only [hsep, if_pos rfl]
    rw [hpick]
    simp
  · rename_i h
    rw [hbreak] at h
    simp at h

theorem lookupKey_mem {α : Type} (m : List (String × α)) (k : String) (v : α)
    (h : lookupKey m k = some v) : (k, v) ∈ m := by
  induction m with
  | nil => simp [lookupKey] at h
  | cons e rest ih =>
    by_cases he : e.1 = k
    · simp [lookupKey, he] at h
      exact List.mem_cons.mpr (Or.inl (by rw [← he, ← h]))
    · simp [lookupKey, he] at h
      exact List.mem_cons.mpr (Or.inr (ih h))

theorem mem_objSet {α : Type} (m : List (String × α)) (k : String) (v : α) :
    ∀ e ∈ objSet m k v, e ∈ m ∨ e = (k, v) := by
  induction m with
  | nil => intro e he; simp [objSet] at he; exact Or.inr he
  | cons e0 rest ih =>
    intro e he
    by_cases h0 : e0.1 = k
    · simp [objSet, h0] at he
      rcases he with he | he
      · exact Or.inr he
      · exact Or.inl (by simp [he])
    · have he2 : e ∈ e0 :: objSet rest k v := by
        simpa [objSet, h0] using he
      rcases List.mem_cons.mp he2 with h3 | h3
      · exact Or.inl (by simp [h3])
      · rcases ih e h3 with h4 | h4
        · exact Or.inl (by simp [h4])
        · exact Or.inr h4

/-- Every value stored by `normalizeVariables` originates from the input map. -/
theorem mem_normalizeVariables_values (vars : List (String × String)) :
    ∀ e ∈ normalizeVariables vars, ∃ kv ∈ vars, e.2 = kv.2 := by
  have haux : ∀ (l : List (String × String)) (acc : List (String × String)),
      ∀ e ∈ l.foldl (fun acc kv =>
          if kv.1 = "" then acc else objSet acc (kv.1.trim.toLower) kv.2) acc,
        e ∈ acc ∨ ∃ kv ∈ l, e.2 = kv.2 := by
    intro l
    induction l with
    | nil => intro acc e he; exact Or.inl he
    | cons kv0 rest ih =>
      intro acc e he
      rw [List.foldl_cons] at he
      rcases ih _ e he with h2 | ⟨kv2, hkv2, hv2⟩
      · by_cases h0 : kv0.1 = ""
        · rw [if_pos h0] at h2
          exact Or.inl h2
        · rw [if_neg h0] at h2
          rcases mem_objSet acc (kv0.1.trim.toLower) kv0.2 e h2 with h3 | h3
          · exact Or.inl h3
          · exact Or.inr ⟨kv0, by simp, by rw [h3]⟩
      · exact Or.inr ⟨kv2, by simp [hkv2], hv2⟩
  intro e he
  rcases haux vars [] e he with h | h
  · simp at h
  · exact h

/-- Stage two: the spintax stage acts segment-wise on the substituted text and
realizes the spec-side renderer. -/
theorem spintaxParse_join (nv : List (String × String)) (ch : List Nat)
    (segs : List TSeg) (hw : ∀ seg ∈ segs, wfSeg seg)
    (hnv : ∀ k v, lookupKey nv k = some v → ∀ c ∈ v.data, c ≠ lbraceC) :
    spintaxParse ch ((segs.map (substSeg nv)).join) = renderSegs nv ch segs := by
  induction segs generalizing ch with
  | nil =>
    simp only [List.map_nil, List.join_nil]
    rw [spintaxParse]
    rfl
  | cons seg rest ih =>
    have hjoin : ((seg :: rest).map (substSeg nv)).join =
        substSeg nv seg ++ (rest.map (substSeg nv)).join := by simp
    have hwrest : ∀ s2 ∈ rest, wfSeg s2 := fun s2 h2 => hw s2 (by simp [h2])
    have hrest : ∀ ch2, spintaxParse ch2 ((rest.map (substSeg nv)).join) =
        renderSegs nv ch2 rest := fun ch2 => ih ch2 hwrest
    have hwseg := hw seg (by simp)
    rw [hjoin]
    cases seg with
    | lit s =>
      rw [show substSeg nv (TSeg.lit s) = s.data from rfl,
        spintaxParse_pass ch s.data _ (fun c hc => (hwseg c hc).1), hrest ch]
      rfl
    | brVar k =>
      cases hl : lookupKey nv (normKey k.data) with
      | some v =>
        have hsm : substSeg nv (TSeg.brVar k) = v.data := by
          simp [substSeg, substMatch, hl]
        rw [hsm, spintaxParse_pass ch v.data _ (hnv _ v hl), hrest ch]
        show v.data ++ renderSegs nv ch rest =
          substMatch nv lbraceC rbraceC k.data ++ renderSegs nv ch rest
        rw [show substMatch nv lbraceC rbraceC k.data = v.data by simp [substMatch, hl]]
      | none =>
        have hsm : substSeg nv (TSeg.brVar k) = lbraceC :: k.data ++ [rbraceC] := by
          simp [substSeg, substMatch, hl]
        have hsh : (lbraceC :: k.data ++ [rbraceC]) ++ (rest.map (substSeg nv)).join =
            lbraceC :: (k.data ++ rbraceC :: (rest.map (substSeg nv)).join) := by
          simp
        rw [hsm, hsh, spintaxParse_verbatim ch k.data _ (fun c hc => (hwseg.2 c hc).1),
          hrest ch]
        show lbraceC :: (k.data ++ rbraceC :: renderSegs nv ch rest) =
          substMatch nv lbraceC rbraceC k.data ++ renderSegs nv ch rest
        rw [show substMatch nv lbraceC rbraceC k.data = lbraceC :: k.data ++ [rbraceC]
          by simp [substMatch, hl]]
        simp
    | bkVar k =>
      cases hl : lookupKey nv (normKey k.data) with
      | some v =>
        have hsm : substSeg nv (TSeg.bkVar k) = v.data := by
          simp [substSeg, substMatch, hl]
        rw [hsm, spintaxParse_pass ch v.data _ (hnv _ v hl), hrest ch]
        show v.data ++ renderSegs nv ch rest =
          substMatch nv lbrackC rbrackC k.data ++ renderSegs nv ch rest
        rw [show substMatch nv lbrackC rbrackC k.data = v.data by simp [substMatch, hl]]
      | none =>
        have hsm : substSeg nv (TSeg.bkVar k) = lbrackC :: k.data ++ [rbrackC] := by
          simp [substSeg, substMatch, hl]
        have hpass : ∀ c ∈ lbrackC :: k.data ++ [rbrackC], c ≠ lbraceC := by
          intro c hc
          simp at hc
          rcases hc with hc | hc | hc
          · rw [hc]; decide
          · exact braceStop_ne_lbrace ((hwseg.2 c hc).1)
          · rw [hc]; decide
        rw [hsm, spintaxParse_pass ch _ _ hpass, hrest ch]
        show (lbrackC :: k.data ++ [rbrackC]) ++ renderSegs nv ch rest =
          substMatch nv lbrackC rbrackC k.data ++ renderSegs nv ch rest
        rw [show substMatch nv lbrackC rbrackC k.data = lbrackC :: k.data ++ [rbrackC]
          by simp [substMatch, hl]]
    | spin alts =>
      have hsm : substSeg nv (TSeg.spin alts) =
          lbraceC :: joinSep (alts.map String.data) ++ [rbraceC] := rfl
      have hsh : (lbraceC :: joinSep (alts.map String.data) ++ [rbraceC]) ++
          (rest.map (substSeg nv)).join =
          lbraceC :: (joinSep (alts.map String.data) ++
            rbraceC :: (rest.map (substSeg nv)).join) := by
        simp
      rw [hsm, hsh, spintaxParse_group ch alts _ hwseg.1 hwseg.2, hrest ch.tail]
      rfl

/-- An all-empty tokenized template renders to the empty string. -/
theorem renderSegs_of_flatten_nil (nv : List (String × String)) (ch : List Nat)
    (segs : List TSeg) (h : flattenSegs segs = []) :
    renderSegs nv ch segs = [] := by
  induction segs generalizing ch with
  | nil => rfl
  | cons seg rest ih =>
    have hsplit : flattenSeg seg = [] ∧ flattenSegs rest = [] := by
      have : flattenSeg seg ++ flattenSegs rest = [] := by
        simpa [flattenSegs] using h
      exact List.append_eq_nil.mp this
    cases seg with
    | lit s =>
      have hd : s.data = [] := hsplit.1
      show s.data ++ renderSegs nv ch rest = []
      rw [hd, ih ch hsplit.2]
      rfl
    | brVar k => exact absurd hsplit.1 (by simp [flattenSeg])
    | bkVar k => exact absurd hsplit.1 (by simp [flattenSeg])
    | spin alts => exact absurd hsplit.1 (by simp [flattenSeg])

instance wfSegDecidable (seg : TSeg) : Decidable (wfSeg seg) :=
  match seg with
  | .lit s => (inferInstance : Decidable (∀ c ∈ s.data, c ≠ lbraceC ∧ c ≠ lbrackC))
  | .brVar k => (inferInstance : Decidable (k.data ≠ [] ∧
      ∀ c ∈ k.data, braceStop c = false ∧ brackStop c = false))
  | .bkVar k => (inferInstance : Decidable (k.data ≠ [] ∧
      ∀ c ∈ k.data, braceStop c = false ∧ brackStop c = false))
  | .spin alts => (inferInstance : Decidable (2 ≤ alts.length ∧
      ∀ a ∈ alts, ∀ c ∈ a.data, braceStop c = false ∧ brackStop c = false))

/-- C8: for every template (given by its well-formed tokenization) and
variable map (values free of group-opening braces), rendering replaces each
placeholder token whose case/whitespace-normalized name matches a supplied
variable with that variable's string value, leaves every unrecognized
placeholder verbatim in the output, and never throws because of a missing
variable: `applyTemplate` is total and equals the segment-wise renderer
`renderSegs`, whose placeholder cases yield the variable value when the
normalized key is present and the original placeholder text verbatim when it
is not. -/
theorem applyTemplate_renders (choices : List Nat) (vars : List (String × String))
    (segs : List TSeg) (hw : ∀ seg ∈ segs, wfSeg seg)
    (hv : ∀ kv ∈ vars, ∀ c ∈ (kv.2 : String).data, c ≠ lbraceC) :
    applyTemplate choices (String.mk (flattenSegs segs)) vars =
      String.mk (renderSegs (normalizeVariables vars) choices segs) := by
  have hnv : ∀ k v, lookupKey (normalizeVariables vars) k = some v →
      ∀ c ∈ v.data, c ≠ lbraceC := by
    intro k v hl c hc
    rcases mem_normalizeVariables_values vars _ (lookupKey_mem _ _ _ hl) with ⟨kv, hkv, hv2⟩
    exact hv kv hkv c (by rw [show v = kv.2 from hv2] at hc; exact hc)
  unfold applyTemplate
  by_cases h0 : String.mk (flattenSegs segs) = ""
  · rw [if_pos h0]
    have hnil : flattenSegs segs = [] := congrArg String.data h0
    rw [renderSegs_of_flatten_nil _ _ _ hnil]
  · rw [if_neg h0]
    rw [show (String.mk (flattenSegs segs)).data = flattenSegs segs from rfl,
      substVars_flatten _ _ hw, spintaxParse_join _ _ _ hw hnv]

/-- The tokenized template `"Ola [nome] {A/B} [missing]"`. -/
def rendererSegsExample : List TSeg :=
  [TSeg.lit "Ola ", TSeg.bkVar "nome", TSeg.lit " ", TSeg.spin ["A", "B"],
   TSeg.lit " ", TSeg.bkVar "missing"]

def rendererVarsExample : List (String × String) := [("Nome", "Sam")]

/-- Witness for C8: the example template with a case-normalized match for
`nome`, a variant group, and an unknown placeholder `missing`. -/
theorem applyTemplate_renders_witness :
    (∀ seg ∈ rendererSegsExample, wfSeg seg) ∧
    (∀ kv ∈ rendererVarsExample, ∀ c ∈ (kv.2 : String).data, c ≠ lbraceC) ∧
    applyTemplate [0] (String.mk (flattenSegs rendererSegsExample)) rendererVarsExample =
      String.mk (renderSegs (normalizeVariables rendererVarsExample) [0]
        rendererSegsExample) :=
  ⟨by decide, by decide,
    applyTemplate_renders [0] rendererVarsExample rendererSegsExample
      (by decide) (by decide)⟩

end SmartDispatcher